import Mathlib

/-!
# Verification of the cubes texture-atlas allocation and block-face synthesis engine

Shallow embedding of `src/blockset.js` (the `Texgen` atlas allocator, the
`rebuildOne` face synthesizer, the rotation cache helpers and the `BlockSet`
tile-size bookkeeping), together with theorems settling the frozen claims
about it.

Modelling conventions:
* JS numbers holding small non-negative integers become `Nat`; pixel indices
  (which can go one step negative inside `Texgen.completed`) become `Int`;
  texture UV coordinates (exact dyadic fractions in the source, since
  `textureSize` is a power of two) become `ℚ`.
* The RGBA pixel buffer (`texgen.image.data`, a zero-initialized
  `Uint8ClampedArray`) is modelled as a total function `Int → Nat`; every
  write the source performs becomes a `Function.update`.
* The tile usage map (a JS object keyed by usage-index strings) is modelled
  as an association list over an arbitrary decidable key type `κ`;
  `usageMap[k] = v` on an absent key is a cons, `delete usageMap[k]` removes
  the (unique) binding.
* Usage-index strings `"blockID,dimName,layer"` are modelled by a structured
  key type; the string encoding is injective on the values the source builds
  (block ids contain no commas), so this is faithful.
-/

namespace Cubes

/-! ## Association-list usage map (JS object `usageMap`) -/

/-- Lookup of `usageMap[k]`: first binding with the given key. -/
def umLookup {κ : Type} [DecidableEq κ] (t : κ) : List (κ × Nat) → Option Nat
  | [] => none
  | (k, v) :: r => if k = t then some v else umLookup t r

/-- `delete usageMap[k]`: removes the binding for `k` (keys are unique in all
reachable states, so removing the first binding models JS `delete`). -/
def umErase {κ : Type} [DecidableEq κ] (t : κ) : List (κ × Nat) → List (κ × Nat)
  | [] => []
  | (k, v) :: r => if k = t then r else (k, v) :: umErase t r

theorem umLookup_nil {κ : Type} [DecidableEq κ] (t : κ) :
    umLookup t ([] : List (κ × Nat)) = none := rfl

theorem umLookup_cons_self {κ : Type} [DecidableEq κ] (t : κ) (v : Nat)
    (l : List (κ × Nat)) : umLookup t ((t, v) :: l) = some v := by
  simp [umLookup]

theorem umLookup_cons_ne {κ : Type} [DecidableEq κ] {t k : κ} (h : k ≠ t) (v : Nat)
    (l : List (κ × Nat)) : umLookup t ((k, v) :: l) = umLookup t l := by
  simp [umLookup, h]

theorem umLookup_umErase_ne {κ : Type} [DecidableEq κ] {t t' : κ} (h : t' ≠ t)
    (l : List (κ × Nat)) : umLookup t' (umErase t l) = umLookup t' l := by
  induction l with
  | nil => rfl
  | cons p r ih =>
    obtain ⟨k, v⟩ := p
    by_cases hk : k = t
    · subst hk
      have hkt : ¬ (k = t') := fun hh => h (hh ▸ rfl)
      simp [umErase, umLookup, hkt]
    · by_cases hk' : k = t'
      · subst hk'
        simp [umErase, hk, umLookup]
      · simp [umErase, hk, umLookup, hk', ih]

theorem umLookup_eq_none_of_not_mem_keys {κ : Type} [DecidableEq κ] {t : κ}
    {l : List (κ × Nat)} (h : t ∉ l.map Prod.fst) : umLookup t l = none := by
  induction l with
  | nil => rfl
  | cons p r ih =>
    obtain ⟨k, v⟩ := p
    simp only [List.map_cons, List.mem_cons] at h
    push_neg at h
    have hkk : ¬ (k = t) := fun hk => h.1 hk.symm
    simpa [umLookup, hkk] using ih h.2

theorem mem_keys_of_umLookup_eq_some {κ : Type} [DecidableEq κ] {t : κ}
    {l : List (κ × Nat)} {v : Nat} (h : umLookup t l = some v) :
    t ∈ l.map Prod.fst := by
  induction l with
  | nil => simp [umLookup] at h
  | cons p r ih =>
    obtain ⟨k, v'⟩ := p
    by_cases hk : k = t
    · subst hk; simp
    · simp only [umLookup, hk, if_false] at h
      simp only [List.map_cons, List.mem_cons]
      exact Or.inr (ih h)

theorem umErase_sublist {κ : Type} [DecidableEq κ] (t : κ) (l : List (κ × Nat)) :
    (umErase t l).Sublist l := by
  induction l with
  | nil => simp [umErase]
  | cons p r ih =>
    obtain ⟨k, v⟩ := p
    by_cases hk : k = t
    · rw [umErase, if_pos hk]
      exact List.sublist_cons_self (k, v) r
    · rw [umErase, if_neg hk]
      exact ih.cons₂ (k, v)

/-! ## The Texgen atlas allocator state

State of the closure variables of `function Texgen(tileSize)` in
`src/blockset.js`:  `textureSize`, `tileCountSqrt`, `tileAllocMap`
(a `Uint8Array` of 0/1 flags), `freePointer`, `usageMap`, `this.textureLost`
and the pixel buffer `this.image` (width `textureSize`, zero-initialized).
`borderTileSize = tileSize + 2` is a constant and is recomputed on use. -/

structure Texgen (κ : Type) where
  tileSize : Nat
  textureSize : Nat
  tileCountSqrt : Nat
  tileAllocMap : List Nat
  freePointer : Nat
  usageMap : List (κ × Nat)
  textureLost : Bool
  image : Int → Nat

/-- `function enlargeTexture()` (blockset.js lines 365-387): doubles
`textureSize`, recomputes `tileCountSqrt = Math.floor(textureSize/borderTileSize)`,
allocates a fresh zeroed `ImageData` and occupancy bitmap, resets the free
pointer, clears the usage map and raises `textureLost`. -/
def enlargeTexture {κ : Type} (s : Texgen κ) : Texgen κ :=
  let ts := s.textureSize * 2
  let tcs := ts / (s.tileSize + 2)
  { s with
    textureSize := ts
    tileCountSqrt := tcs
    image := fun _ => 0
    tileAllocMap := List.replicate (tcs * tcs) 0
    freePointer := 0
    usageMap := []
    textureLost := true }

/-- `function Texgen(tileSize)`: `textureSize` is seeded with 128 and the
constructor immediately runs `enlargeTexture()` (line 388), so a fresh
allocator starts with a 256×256 surface and `textureLost` raised. -/
def initTexgen (κ : Type) (tileSize : Nat) : Texgen κ :=
  enlargeTexture
    { tileSize := tileSize
      textureSize := 128
      tileCountSqrt := 0
      tileAllocMap := []
      freePointer := 0
      usageMap := []
      textureLost := false
      image := fun _ => 0 }

/-- The free-slot scan of `function tileAlloc()` (lines 447-460):
`while (tileAllocMap[freePointer]) { if ((++n) >= length) ... enlarge;
freePointer = mod(freePointer+1, length); }`.  Returns the index of the first
free cell in circular order from `fp`, or `none` if the whole bitmap is
occupied (the enlarge branch). -/
def tileScanLoop (map : List Nat) : Nat → Nat → Nat → Option Nat
  | 0, fp, _ => if map.getD fp 0 ≠ 0 then none else some fp
  | fuel + 1, fp, n =>
    if map.getD fp 0 ≠ 0 then
      if map.length ≤ n + 1 then none
      else tileScanLoop map fuel ((fp + 1) % map.length) (n + 1)
    else some fp

/-- The loop of `tileAlloc` entered with counter value `n`; the counter bounds
the number of remaining steps by `map.length - n`, which serves as structural
fuel.  (When the fuel hits zero the loop is in its final iteration: the
`(++n) >= length` test fires on an occupied cell.) -/
def tileAllocScan (map : List Nat) (fp n : Nat) : Option Nat :=
  tileScanLoop map (map.length - n) fp n

/-- `function tileCoords(index)` (line 464): `[floor(index / tileCountSqrt),
mod(index, tileCountSqrt)]`. -/
def tileCoords {κ : Type} (s : Texgen κ) (index : Nat) : Nat × Nat :=
  (index / s.tileCountSqrt, index % s.tileCountSqrt)

/-- `function tileAlloc()` (lines 447-460): on success marks the found cell
occupied and leaves `freePointer` at it; on exhaustion runs
`enlargeTexture()` and returns index 0. -/
def tileAlloc {κ : Type} (s : Texgen κ) : Nat × Texgen κ :=
  match tileAllocScan s.tileAllocMap s.freePointer 0 with
  | some i => (i, { s with tileAllocMap := s.tileAllocMap.set i 1, freePointer := i })
  | none => (0, enlargeTexture s)

/-- `this.allocationFor` (lines 390-403).  Note that in the exhaustion case
the JS assignment `usageMap[usageIndex] = tileAlloc()` resolves the
`usageMap` reference before `tileAlloc` swaps in the fresh map, so the token
is written into the discarded old map and the new map stays empty. -/
def allocationFor {κ : Type} [DecidableEq κ] (s : Texgen κ) (t : κ) :
    (Nat × Nat) × Texgen κ :=
  if s.textureLost then ((0, 0), s)
  else
    match umLookup t s.usageMap with
    | some i => (tileCoords s i, s)
    | none =>
      match tileAllocScan s.tileAllocMap s.freePointer 0 with
      | some i =>
        let s' : Texgen κ :=
          { s with
            tileAllocMap := s.tileAllocMap.set i 1
            freePointer := i
            usageMap := (t, i) :: s.usageMap }
        (tileCoords s' i, s')
      | none =>
        let s' := enlargeTexture s
        (tileCoords s' 0, s')

/-- `this.deallocateUsage` (lines 416-422): no-op while `textureLost`;
otherwise clears the token's bitmap cell and deletes the mapping.  (On an
unmapped token the JS writes `tileAllocMap[undefined] = 0`, which a typed
array ignores, and `delete` is a no-op: state unchanged.) -/
def deallocateUsage {κ : Type} [DecidableEq κ] (s : Texgen κ) (t : κ) : Texgen κ :=
  if s.textureLost then s
  else
    match umLookup t s.usageMap with
    | some i =>
      { s with
        tileAllocMap := s.tileAllocMap.set i 0
        usageMap := umErase t s.usageMap }
    | none => s

/-- `this.uvFor` (lines 404-409); `borderUVOffset = 1/textureSize`,
`borderTileUVSize = borderTileSize/textureSize` as recomputed by
`enlargeTexture` from the current texture size. -/
def uvFor {κ : Type} [DecidableEq κ] (s : Texgen κ) (t : κ) :
    (ℚ × ℚ) × Texgen κ :=
  let r := allocationFor s t
  let s' := r.2
  let off : ℚ := 1 / (s'.textureSize : ℚ)
  let btuv : ℚ := ((s'.tileSize : ℚ) + 2) / (s'.textureSize : ℚ)
  ((off + btuv * (r.1.1 : ℚ), off + btuv * (r.1.2 : ℚ)), s')

/-- `this.imageCoordsFor` (lines 410-415): `[1 + borderTileSize*c[0],
1 + borderTileSize*c[1]]`. -/
def imageCoordsFor {κ : Type} [DecidableEq κ] (s : Texgen κ) (t : κ) :
    (Nat × Nat) × Texgen κ :=
  let r := allocationFor s t
  ((1 + (r.2.tileSize + 2) * r.1.1, 1 + (r.2.tileSize + 2) * r.1.2), r.2)

/-! ## List helper lemmas (Uint8Array reads/writes) -/

theorem getD_replicate_zero (m i : Nat) :
    (List.replicate m (0 : Nat)).getD i 0 = 0 := by
  induction m generalizing i with
  | zero => cases i <;> rfl
  | succ m ih =>
    cases i with
    | zero => rfl
    | succ j =>
      rw [List.replicate_succ]
      exact ih j

theorem getD_of_length_le {l : List Nat} {i : Nat} (h : l.length ≤ i) :
    l.getD i 0 = 0 := by
  induction l generalizing i with
  | nil => cases i <;> rfl
  | cons a r ih =>
    cases i with
    | zero => simp at h
    | succ j =>
      simp only [List.length_cons] at h
      simpa [List.getD] using ih (by omega)

theorem getD_set_self {l : List Nat} {i : Nat} (v : Nat) (h : i < l.length) :
    (l.set i v).getD i 0 = v := by
  induction l generalizing i with
  | nil => simp at h
  | cons a r ih =>
    cases i with
    | zero => rfl
    | succ j =>
      simp only [List.length_cons] at h
      simpa [List.set, List.getD] using ih (by omega)

theorem getD_set_ne {l : List Nat} {i j : Nat} (v : Nat) (h : i ≠ j) :
    (l.set i v).getD j 0 = l.getD j 0 := by
  induction l generalizing i j with
  | nil => simp
  | cons a r ih =>
    cases i with
    | zero =>
      cases j with
      | zero => exact absurd rfl h
      | succ j' => rfl
    | succ i' =>
      cases j with
      | zero => rfl
      | succ j' => simpa [List.set, List.getD] using ih (fun hh => h (by omega))

theorem set_getD_zero_eq_self {l : List Nat} {i : Nat} (h : l.getD i 0 = 0) :
    l.set i 0 = l := by
  induction l generalizing i with
  | nil => rfl
  | cons a r ih =>
    cases i with
    | zero => simpa [List.set, List.getD] using h.symm
    | succ j =>
      simp only [List.set]
      rw [ih (by simpa [List.getD] using h)]

/-! ## Free-slot scan lemmas -/

theorem tileScanLoop_sound {map : List Nat} :
    ∀ {fuel fp n i : Nat}, fp < map.length → tileScanLoop map fuel fp n = some i →
    i < map.length ∧ map.getD i 0 = 0 := by
  intro fuel
  induction fuel with
  | zero =>
    intro fp n i hfp h
    rw [tileScanLoop] at h
    by_cases hocc : map.getD fp 0 ≠ 0
    · rw [if_pos hocc] at h
      cases h
    · rw [if_neg hocc] at h
      obtain rfl : fp = i := by injection h
      exact ⟨hfp, by simpa using hocc⟩
  | succ fuel ih =>
    intro fp n i hfp h
    rw [tileScanLoop] at h
    by_cases hocc : map.getD fp 0 ≠ 0
    · rw [if_pos hocc] at h
      by_cases hlen : map.length ≤ n + 1
      · rw [if_pos hlen] at h
        cases h
      · rw [if_neg hlen] at h
        exact ih (Nat.mod_lt _ (by omega)) h
    · rw [if_neg hocc] at h
      obtain rfl : fp = i := by injection h
      exact ⟨hfp, by simpa using hocc⟩

theorem tileAllocScan_sound {map : List Nat} {fp n i : Nat}
    (hfp : fp < map.length) (h : tileAllocScan map fp n = some i) :
    i < map.length ∧ map.getD i 0 = 0 :=
  tileScanLoop_sound hfp h

/-- First-fit characterization of the circular scan: if the cell `k` steps
after `fp` (circularly) is free and all strictly earlier cells of the scan are
occupied, the scan stops exactly there. -/
theorem tileScanLoop_first_free {map : List Nat} :
    ∀ (k fuel fp n : Nat), fp < map.length → k + n < map.length → k ≤ fuel →
    map.getD ((fp + k) % map.length) 0 = 0 →
    (∀ j < k, map.getD ((fp + j) % map.length) 0 ≠ 0) →
    tileScanLoop map fuel fp n = some ((fp + k) % map.length) := by
  intro k
  induction k with
  | zero =>
    intro fuel fp n hfp _ _ hfree _
    rw [Nat.add_zero, Nat.mod_eq_of_lt hfp] at hfree ⊢
    cases fuel with
    | zero => rw [tileScanLoop, if_neg (not_ne_iff.mpr hfree)]
    | succ fuel => rw [tileScanLoop, if_neg (not_ne_iff.mpr hfree)]
  | succ k ih =>
    intro fuel fp n hfp hkn hkf hfree hocc
    have hL : 0 < map.length := Nat.lt_of_le_of_lt (Nat.zero_le _) hfp
    have h0 : map.getD fp 0 ≠ 0 := by
      have := hocc 0 (Nat.succ_pos k)
      rwa [Nat.add_zero, Nat.mod_eq_of_lt hfp] at this
    obtain ⟨fuel, rfl⟩ : ∃ f, fuel = f + 1 := ⟨fuel - 1, by omega⟩
    rw [tileScanLoop, if_pos h0, if_neg (by omega)]
    have hmod : ∀ j : Nat, ((fp + 1) % map.length + j) % map.length
        = (fp + (j + 1)) % map.length := by
      intro j
      rw [Nat.mod_add_mod]
      congr 1
      omega
    have := ih fuel ((fp + 1) % map.length) (n + 1) (Nat.mod_lt _ hL) (by omega)
      (by omega)
      (by rw [hmod k]; exact hfree)
      (by
        intro j hj
        rw [hmod j]
        exact hocc (j + 1) (by omega))
    rw [this, hmod k]

/-- First-fit characterization of `tileAlloc`: the scan started with counter
0 stops at the first free cell in circular order from the cursor. -/
theorem tileAllocScan_first_free {map : List Nat} (k fp : Nat)
    (hfp : fp < map.length) (hk : k < map.length)
    (hfree : map.getD ((fp + k) % map.length) 0 = 0)
    (hocc : ∀ j < k, map.getD ((fp + j) % map.length) 0 ≠ 0) :
    tileAllocScan map fp 0 = some ((fp + k) % map.length) :=
  tileScanLoop_first_free k (map.length - 0) fp 0 hfp (by omega) (by omega) hfree hocc

/-- If every cell of the bitmap is occupied, the scan wraps the whole bitmap
and reports exhaustion. -/
theorem tileScanLoop_none_of_full {map : List Nat} :
    ∀ (fuel fp n : Nat), fp < map.length → (∀ j < map.length, map.getD j 0 ≠ 0) →
    tileScanLoop map fuel fp n = none := by
  intro fuel
  induction fuel with
  | zero =>
    intro fp n hfp hfull
    rw [tileScanLoop, if_pos (hfull fp hfp)]
  | succ fuel ih =>
    intro fp n hfp hfull
    rw [tileScanLoop, if_pos (hfull fp hfp)]
    by_cases hlen : map.length ≤ n + 1
    · rw [if_pos hlen]
    · rw [if_neg hlen]
      exact ih _ _ (Nat.mod_lt _ (Nat.lt_of_le_of_lt (Nat.zero_le _) hfp)) hfull

theorem tileAllocScan_none_of_full {map : List Nat} {fp : Nat} (n : Nat)
    (hfp : fp < map.length) (hfull : ∀ j < map.length, map.getD j 0 ≠ 0) :
    tileAllocScan map fp n = none :=
  tileScanLoop_none_of_full _ _ _ hfp hfull

theorem exists_umLookup_of_mem_keys {κ : Type} [DecidableEq κ] {t : κ}
    {l : List (κ × Nat)} (h : t ∈ l.map Prod.fst) :
    ∃ v, umLookup t l = some v := by
  induction l with
  | nil => simp at h
  | cons p r ih =>
    obtain ⟨k, v⟩ := p
    by_cases hk : k = t
    · exact ⟨v, by simp [umLookup, hk]⟩
    · simp only [List.map_cons, List.mem_cons] at h
      rcases h with h | h

      · exact absurd h.symm hk
      · simpa [umLookup, hk] using ih h

theorem umLookup_umErase_self {κ : Type} [DecidableEq κ] {t : κ}
    {l : List (κ × Nat)} (hnd : (l.map Prod.fst).Nodup) :
    umLookup t (umErase t l) = none := by
  induction l with
  | nil => rfl
  | cons p r ih =>
    obtain ⟨k, v⟩ := p
    simp only [List.map_cons, List.nodup_cons] at hnd
    by_cases hk : k = t
    · subst hk
      rw [umErase, if_pos rfl]
      exact umLookup_eq_none_of_not_mem_keys hnd.1
    · rw [umErase, if_neg hk, umLookup, if_neg hk]
      exact ih hnd.2

/-! ## The allocator invariant (claim C1)

`TexWF` records the size coherence of the closure variables
(`tileCountSqrt = floor(textureSize/borderTileSize)`, bitmap of
`tileCountSqrt²` cells, free pointer in range); `TexBij` is the
bijection between occupied bitmap cells and live usage tokens. -/

def TexWF {κ : Type} (s : Texgen κ) : Prop :=
  s.freePointer < s.tileAllocMap.length ∧
  s.tileCountSqrt = s.textureSize / (s.tileSize + 2) ∧
  s.tileAllocMap.length = s.tileCountSqrt * s.tileCountSqrt

instance {κ : Type} (s : Texgen κ) : Decidable (TexWF s) := by
  unfold TexWF
  infer_instance

/-- Keys of the usage map are pairwise distinct (automatic for a JS object). -/
def UMNodup {κ : Type} (s : Texgen κ) : Prop :=
  (s.usageMap.map Prod.fst).Nodup

/-- Every live token maps to a distinct occupied cell and every occupied cell
is the image of exactly one live token. -/
def TexBij {κ : Type} [DecidableEq κ] (s : Texgen κ) : Prop :=
  (∀ i, s.tileAllocMap.getD i 0 ≠ 0 ↔ ∃ t, umLookup t s.usageMap = some i) ∧
  (∀ t₁ t₂ i, umLookup t₁ s.usageMap = some i →
    umLookup t₂ s.usageMap = some i → t₁ = t₂)

def TexInv {κ : Type} [DecidableEq κ] (s : Texgen κ) : Prop :=
  TexWF s ∧ UMNodup s ∧ TexBij s

theorem texInv_enlarge {κ : Type} [DecidableEq κ] {s : Texgen κ}
    (h : TexInv s) : TexInv (enlargeTexture s) := by
  obtain ⟨⟨hfp, htcs, hlen⟩, hnd, hbij⟩ := h
  have hL : 0 < s.tileAllocMap.length := Nat.lt_of_le_of_lt (Nat.zero_le _) hfp
  have htcs0 : 0 < s.tileCountSqrt := by
    by_contra hc
    have hz : s.tileCountSqrt = 0 := by omega
    rw [hlen, hz] at hL
    simp at hL
  have h1 : 1 ≤ s.textureSize / (s.tileSize + 2) := htcs ▸ htcs0
  have hts : s.tileSize + 2 ≤ s.textureSize := by
    have := (Nat.le_div_iff_mul_le (show 0 < s.tileSize + 2 by omega)).mp h1
    omega
  have htcs2 : 0 < s.textureSize * 2 / (s.tileSize + 2) := by
    apply Nat.div_pos (by omega) (by omega)
  refine ⟨⟨?_, by simp [enlargeTexture], by simp [enlargeTexture]⟩,
    by simp [UMNodup, enlargeTexture], ?_, ?_⟩
  · simp only [enlargeTexture, List.length_replicate]
    exact Nat.mul_pos htcs2 htcs2
  · intro i
    simp [enlargeTexture, getD_replicate_zero, umLookup_nil]
  · intro t₁ t₂ i h1 h2
    simp only [enlargeTexture] at h1
    exact absurd h1 (by simp [umLookup_nil])

/-! Equation lemmas exposing the four branches of `allocationFor` and the
three branches of `deallocateUsage`. -/

/-- The state reached by a successful fresh allocation of token `t` at
cell `i`. -/
def allocState {κ : Type} (s : Texgen κ) (t : κ) (i : Nat) : Texgen κ :=
  { s with
    tileAllocMap := s.tileAllocMap.set i 1
    freePointer := i
    usageMap := (t, i) :: s.usageMap }

theorem allocationFor_lost {κ : Type} [DecidableEq κ] {s : Texgen κ} (t : κ)
    (hl : s.textureLost = true) : allocationFor s t = ((0, 0), s) := by
  simp [allocationFor, hl]

theorem allocationFor_found {κ : Type} [DecidableEq κ] {s : Texgen κ} {t : κ} {i : Nat}
    (hl : s.textureLost = false) (hum : umLookup t s.usageMap = some i) :
    allocationFor s t = (tileCoords s i, s) := by
  simp [allocationFor, hl, hum]

theorem allocationFor_fresh {κ : Type} [DecidableEq κ] {s : Texgen κ} {t : κ} {i : Nat}
    (hl : s.textureLost = false) (hum : umLookup t s.usageMap = none)
    (hscan : tileAllocScan s.tileAllocMap s.freePointer 0 = some i) :
    allocationFor s t = (tileCoords (allocState s t i) i, allocState s t i) := by
  simp [allocationFor, hl, hum, hscan, allocState]

theorem allocationFor_grow {κ : Type} [DecidableEq κ] {s : Texgen κ} {t : κ}
    (hl : s.textureLost = false) (hum : umLookup t s.usageMap = none)
    (hscan : tileAllocScan s.tileAllocMap s.freePointer 0 = none) :
    allocationFor s t = (tileCoords (enlargeTexture s) 0, enlargeTexture s) := by
  simp [allocationFor, hl, hum, hscan]

/-- The state reached by deallocating a token bound to cell `i`. -/
def deallocState {κ : Type} [DecidableEq κ] (s : Texgen κ) (t : κ) (i : Nat) : Texgen κ :=
  { s with
    tileAllocMap := s.tileAllocMap.set i 0
    usageMap := umErase t s.usageMap }

theorem deallocateUsage_lost {κ : Type} [DecidableEq κ] {s : Texgen κ} (t : κ)
    (hl : s.textureLost = true) : deallocateUsage s t = s := by
  simp [deallocateUsage, hl]

theorem deallocateUsage_none {κ : Type} [DecidableEq κ] {s : Texgen κ} {t : κ}
    (hl : s.textureLost = false) (hum : umLookup t s.usageMap = none) :
    deallocateUsage s t = s := by
  simp [deallocateUsage, hl, hum]

theorem deallocateUsage_some {κ : Type} [DecidableEq κ] {s : Texgen κ} {t : κ} {i : Nat}
    (hl : s.textureLost = false) (hum : umLookup t s.usageMap = some i) :
    deallocateUsage s t = deallocState s t i := by
  simp [deallocateUsage, hl, hum, deallocState]

theorem texInv_alloc {κ : Type} [DecidableEq κ] {s : Texgen κ} (t : κ)
    (h : TexInv s) : TexInv (allocationFor s t).2 := by
  obtain ⟨⟨hfp, htcs, hlen⟩, hnd, hex, hinj⟩ := h
  rcases hlost : s.textureLost with _ | _
  · rcases hum : umLookup t s.usageMap with _ | i
    · rcases hscan : tileAllocScan s.tileAllocMap s.freePointer 0 with _ | i
      · rw [allocationFor_grow hlost hum hscan]
        exact texInv_enlarge ⟨⟨hfp, htcs, hlen⟩, hnd, hex, hinj⟩
      · -- fresh allocation at the free cell i
        rw [allocationFor_fresh hlost hum hscan]
        obtain ⟨hiL, hifree⟩ := tileAllocScan_sound hfp hscan
        have htm : t ∉ s.usageMap.map Prod.fst := by
          intro hmem
          obtain ⟨v, hv⟩ := exists_umLookup_of_mem_keys hmem
          rw [hum] at hv
          cases hv
        refine ⟨⟨?_, htcs, by simpa [allocState] using hlen⟩, ?_, ?_, ?_⟩
        · simpa [allocState] using hiL
        · exact List.nodup_cons.mpr ⟨htm, hnd⟩
        · intro j
          simp only [allocState]
          by_cases hij : i = j
          · subst hij
            rw [getD_set_self 1 hiL]
            constructor
            · intro _
              exact ⟨t, umLookup_cons_self t i s.usageMap⟩
            · intro _
              omega
          · rw [getD_set_ne 1 hij]
            constructor
            · intro hocc
              obtain ⟨t', ht'⟩ := (hex j).mp hocc
              refine ⟨t', ?_⟩
              have hne : t ≠ t' := by
                intro he
                subst he
                rw [hum] at ht'
                cases ht'
              rw [umLookup_cons_ne hne]
              exact ht'
            · rintro ⟨t', ht'⟩
              by_cases hte : t = t'
              · subst hte
                rw [umLookup_cons_self] at ht'
                exact absurd (by injection ht') hij
              · rw [umLookup_cons_ne hte] at ht'
                exact (hex j).mpr ⟨t', ht'⟩
        · intro t₁ t₂ j h1 h2
          simp only [allocState] at h1 h2
          by_cases h1e : t = t₁
          · subst h1e
            rw [umLookup_cons_self] at h1
            by_cases h2e : t = t₂
            · exact h2e
            · rw [umLookup_cons_ne h2e] at h2
              obtain rfl : i = j := by injection h1
              exact absurd ((hex i).mpr ⟨t₂, h2⟩) (not_ne_iff.mpr hifree)
          · rw [umLookup_cons_ne h1e] at h1
            by_cases h2e : t = t₂
            · subst h2e
              rw [umLookup_cons_self] at h2
              obtain rfl : i = j := by injection h2
              exact absurd ((hex i).mpr ⟨t₁, h1⟩) (not_ne_iff.mpr hifree)
            · rw [umLookup_cons_ne h2e] at h2
              exact hinj t₁ t₂ j h1 h2
    · rw [allocationFor_found hlost hum]
      exact ⟨⟨hfp, htcs, hlen⟩, hnd, hex, hinj⟩
  · rw [allocationFor_lost t hlost]
    exact ⟨⟨hfp, htcs, hlen⟩, hnd, hex, hinj⟩

theorem texInv_dealloc {κ : Type} [DecidableEq κ] {s : Texgen κ} (t : κ)
    (h : TexInv s) : TexInv (deallocateUsage s t) := by
  obtain ⟨⟨hfp, htcs, hlen⟩, hnd, hex, hinj⟩ := h
  rcases hlost : s.textureLost with _ | _
  · rcases hum : umLookup t s.usageMap with _ | i
    · rw [deallocateUsage_none hlost hum]
      exact ⟨⟨hfp, htcs, hlen⟩, hnd, hex, hinj⟩
    · rw [deallocateUsage_some hlost hum]
      refine ⟨⟨by simpa [deallocState] using hfp, htcs,
        by simpa [deallocState] using hlen⟩, ?_, ?_, ?_⟩
      · have hsub : ((umErase t s.usageMap).map Prod.fst).Sublist
            (s.usageMap.map Prod.fst) :=
          (umErase_sublist t s.usageMap).map Prod.fst
        simpa [UMNodup, deallocState] using hnd.sublist hsub
      · intro j
        simp only [deallocState]
        by_cases hij : i = j
        · subst hij
          have hiL : i < s.tileAllocMap.length := by
            by_contra hc
            have := (hex i).mpr ⟨t, hum⟩
            rw [getD_of_length_le (by omega)] at this
            omega
          rw [getD_set_self 0 hiL]
          constructor
          · omega
          · rintro ⟨t', ht'⟩
            by_cases hte : t' = t
            · subst hte
              rw [umLookup_umErase_self hnd] at ht'
              cases ht'
            · rw [umLookup_umErase_ne hte] at ht'
              exact absurd (hinj t' t i ht' hum) hte
        · rw [getD_set_ne 0 hij]
          constructor
          · intro hocc
            obtain ⟨t', ht'⟩ := (hex j).mp hocc
            have hte : t' ≠ t := by
              intro he
              subst he
              rw [hum] at ht'
              exact hij (by injection ht')
            exact ⟨t', by rw [umLookup_umErase_ne hte]; exact ht'⟩
          · rintro ⟨t', ht'⟩
            by_cases hte : t' = t
            · subst hte
              rw [umLookup_umErase_self hnd] at ht'
              cases ht'
            · rw [umLookup_umErase_ne hte] at ht'
              exact (hex j).mpr ⟨t', ht'⟩
      · intro t₁ t₂ j h1 h2
        simp only [deallocState] at h1 h2
        by_cases h1e : t₁ = t
        · subst h1e
          rw [umLookup_umErase_self hnd] at h1
          cases h1
        · by_cases h2e : t₂ = t
          · subst h2e
            rw [umLookup_umErase_self hnd] at h2
            cases h2
          · rw [umLookup_umErase_ne h1e] at h1
            rw [umLookup_umErase_ne h2e] at h2
            exact hinj t₁ t₂ j h1 h2
  · rw [deallocateUsage_lost t hlost]
    exact ⟨⟨hfp, htcs, hlen⟩, hnd, hex, hinj⟩

instance {κ : Type} [DecidableEq κ] (s : Texgen κ) : Decidable (UMNodup s) := by
  unfold UMNodup
  infer_instance

theorem getD_set_zero (l : List Nat) (i : Nat) : (l.set i 0).getD i 0 = 0 := by
  by_cases h : i < l.length
  · exact getD_set_self 0 h
  · exact getD_of_length_le (by simpa using Nat.le_of_not_lt h)

/-- Example allocator state used by witnesses: a one-cell bitmap whose single
cell is occupied by token `0`. -/
def exTexgen : Texgen Nat :=
  { tileSize := 2
    textureSize := 4
    tileCountSqrt := 1
    tileAllocMap := [1]
    freePointer := 0
    usageMap := [(0, 0)]
    textureLost := false
    image := fun _ => 0 }

theorem texInv_exTexgen : TexInv exTexgen := by
  refine ⟨by decide, by decide, ?_, ?_⟩
  · intro i
    match i with
    | 0 => exact ⟨fun _ => ⟨0, rfl⟩, fun _ => by decide⟩
    | i + 1 =>
      rw [getD_of_length_le (by simp [exTexgen])]
      constructor
      · intro h0
        exact absurd rfl h0
      · rintro ⟨t, ht⟩
        simp only [exTexgen] at ht
        by_cases h0 : (0 : Nat) = t
        · subst h0
          rw [umLookup_cons_self] at ht
          injection ht with hh
          omega
        · rw [umLookup_cons_ne h0] at ht
          cases ht
  · intro t₁ t₂ i h1 h2
    simp only [exTexgen] at h1 h2
    by_cases e1 : (0 : Nat) = t₁
    · by_cases e2 : (0 : Nat) = t₂
      · omega
      · rw [umLookup_cons_ne e2] at h2
        cases h2
    · rw [umLookup_cons_ne e1] at h1
      cases h1

/-- **C1**: at every quiescent point the occupied cells of `tileAllocMap` are
in exact one-to-one correspondence with the tokens registered in the usage
map (every live token maps to a distinct occupied cell and every occupied
cell is the image of exactly one live token), and this invariant is preserved
by every `allocationFor`, `deallocateUsage` and `enlargeTexture` operation. -/
theorem claim_C1_bijection_invariant {κ : Type} [DecidableEq κ] (s : Texgen κ)
    (t : κ) (h : TexInv s) :
    TexInv (allocationFor s t).2 ∧ TexInv (deallocateUsage s t) ∧
      TexInv (enlargeTexture s) :=
  ⟨texInv_alloc t h, texInv_dealloc t h, texInv_enlarge h⟩

/-- Witness for C1 at a concrete state and token. -/
theorem claim_C1_bijection_invariant_witness :
    TexInv (allocationFor exTexgen 1).2 ∧ TexInv (deallocateUsage exTexgen 1) ∧
      TexInv (enlargeTexture exTexgen) :=
  claim_C1_bijection_invariant exTexgen 1 texInv_exTexgen

/-! ## Claim C9: texture size bookkeeping -/

/-- Size bookkeeping invariant: `textureSize` is 128 times a power of two,
`tileCountSqrt = floor(textureSize / (tileSize+2))` and the occupancy bitmap
has `tileCountSqrt²` cells. -/
def SizeInv {κ : Type} (s : Texgen κ) : Prop :=
  (∃ k, s.textureSize = 128 * 2 ^ k) ∧
  s.tileCountSqrt = s.textureSize / (s.tileSize + 2) ∧
  s.tileAllocMap.length = s.tileCountSqrt * s.tileCountSqrt

theorem sizeInv_enlarge {κ : Type} {s : Texgen κ}
    (h : ∃ k, s.textureSize = 128 * 2 ^ k) :
    SizeInv (enlargeTexture s) ∧
      (enlargeTexture s).textureSize = 2 * s.textureSize := by
  obtain ⟨k, hk⟩ := h
  refine ⟨⟨⟨k + 1, ?_⟩, rfl, by simp [enlargeTexture]⟩, ?_⟩
  · show s.textureSize * 2 = 128 * 2 ^ (k + 1)
    rw [hk]
    ring
  · show s.textureSize * 2 = 2 * s.textureSize
    ring

theorem sizeInv_init {κ : Type} (t : Nat) : SizeInv (initTexgen κ t) := by
  refine ⟨⟨1, rfl⟩, rfl, by simp [initTexgen, enlargeTexture]⟩

theorem sizeInv_alloc {κ : Type} [DecidableEq κ] {s : Texgen κ} (t : κ)
    (h : SizeInv s) : SizeInv (allocationFor s t).2 := by
  obtain ⟨hp, htcs, hlen⟩ := h
  rcases hlost : s.textureLost with _ | _
  · rcases hum : umLookup t s.usageMap with _ | i
    · rcases hscan : tileAllocScan s.tileAllocMap s.freePointer 0 with _ | i
      · rw [allocationFor_grow hlost hum hscan]
        exact (sizeInv_enlarge hp).1
      · rw [allocationFor_fresh hlost hum hscan]
        exact ⟨hp, htcs, by simpa [allocState] using hlen⟩
    · rw [allocationFor_found hlost hum]
      exact ⟨hp, htcs, hlen⟩
  · rw [allocationFor_lost t hlost]
    exact ⟨hp, htcs, hlen⟩

theorem sizeInv_dealloc {κ : Type} [DecidableEq κ] {s : Texgen κ} (t : κ)
    (h : SizeInv s) : SizeInv (deallocateUsage s t) := by
  obtain ⟨hp, htcs, hlen⟩ := h
  rcases hlost : s.textureLost with _ | _
  · rcases hum : umLookup t s.usageMap with _ | i
    · rw [deallocateUsage_none hlost hum]
      exact ⟨hp, htcs, hlen⟩
    · rw [deallocateUsage_some hlost hum]
      exact ⟨hp, htcs, by simpa [deallocState] using hlen⟩
  · rw [deallocateUsage_lost t hlost]
    exact ⟨hp, htcs, hlen⟩

/-- **C9** counterexample: the claim says a newly constructed atlas has
`textureSize = 128` before any allocation; but the `Texgen` constructor runs
the initial `enlargeTexture()` (line 388), so a freshly constructed atlas
already has `textureSize = 256`. -/
theorem claim_C9_counterexample :
    (initTexgen Nat 16).textureSize = 256 ∧
      (initTexgen Nat 16).textureSize ≠ 128 := by
  constructor
  · rfl
  · decide

/-- **C9** (amended): `textureSize` is seeded with 128 and the constructor
immediately doubles it, so a newly constructed atlas has side 256;
`textureSize` is always 128 times a power of two; every growth doubles it
exactly; and the bitmap always has `tileCountSqrt²` cells with
`tileCountSqrt = floor(textureSize / (tileSize + 2))` — this bookkeeping is
preserved by `allocationFor` and `deallocateUsage`. -/
theorem claim_C9_texture_size {κ : Type} [DecidableEq κ] (t : Nat) (s : Texgen κ)
    (tok : κ) (h : SizeInv s) :
    (initTexgen κ t).textureSize = 256 ∧ SizeInv (initTexgen κ t) ∧
    (enlargeTexture s).textureSize = 2 * s.textureSize ∧
    SizeInv (enlargeTexture s) ∧
    SizeInv (allocationFor s tok).2 ∧ SizeInv (deallocateUsage s tok) :=
  ⟨rfl, sizeInv_init t, (sizeInv_enlarge h.1).2, (sizeInv_enlarge h.1).1,
    sizeInv_alloc tok h, sizeInv_dealloc tok h⟩

/-- Witness for C9 at a concrete state. -/
theorem claim_C9_texture_size_witness :
    (initTexgen Nat 2).textureSize = 256 ∧ SizeInv (initTexgen Nat 2) ∧
    (enlargeTexture (initTexgen Nat 2)).textureSize =
      2 * (initTexgen Nat 2).textureSize ∧
    SizeInv (enlargeTexture (initTexgen Nat 2)) ∧
    SizeInv (allocationFor (initTexgen Nat 2) 0).2 ∧
    SizeInv (deallocateUsage (initTexgen Nat 2) 0) :=
  claim_C9_texture_size 2 (initTexgen Nat 2) 0 (sizeInv_init 2)

/-! ## Claims C2 and C3: allocationFor and deallocateUsage semantics -/

/-- All-free two-by-two allocator state with the cursor at cell 0. -/
def c2State : Texgen Nat :=
  { tileSize := 2
    textureSize := 8
    tileCountSqrt := 2
    tileAllocMap := [0, 0, 0, 0]
    freePointer := 0
    usageMap := []
    textureLost := false
    image := fun _ => 0 }

/-- **C2** counterexample: the claim says a fresh allocation "advances the
cursor".  With every cell free and the cursor on cell 0, `allocationFor`
occupies the cell the cursor points at and leaves `freePointer` exactly
where it was: the cursor is not advanced past the newly occupied cell. -/
theorem claim_C2_counterexample :
    c2State.tileAllocMap.getD c2State.freePointer 0 = 0 ∧
    (allocationFor c2State 7).2.freePointer = c2State.freePointer ∧
    (allocationFor c2State 7).2.tileAllocMap.getD c2State.freePointer 0 ≠ 0 := by
  decide

/-- **C2** (amended): for a token already in the usage map, `allocationFor`
returns the coordinates of its assigned tile and leaves the state unchanged;
for a fresh token, when the circular scan from the persistent cursor finds a
first free cell, that cell is marked occupied, the token is registered at it,
its `(row, col)` coordinates are returned, and the cursor is left **at** the
newly occupied cell (it only moves past occupied cells during the scan — it
is not advanced past the allocated cell); when no free cell exists the call
triggers growth — doubling `textureSize`, recomputing `tileCountSqrt`,
allocating a fresh zeroed buffer and bitmap, clearing the token map, raising
the surface-lost flag — and returns `(0,0)` with the token not registered in
the new map. -/
theorem claim_C2_allocate {κ : Type} [DecidableEq κ] (s : Texgen κ) (t : κ)
    (hl : s.textureLost = false) (hwf : TexWF s) :
    (∀ i, umLookup t s.usageMap = some i →
      allocationFor s t = ((i / s.tileCountSqrt, i % s.tileCountSqrt), s)) ∧
    (∀ k, umLookup t s.usageMap = none → k < s.tileAllocMap.length →
      s.tileAllocMap.getD ((s.freePointer + k) % s.tileAllocMap.length) 0 = 0 →
      (∀ j < k,
        s.tileAllocMap.getD ((s.freePointer + j) % s.tileAllocMap.length) 0 ≠ 0) →
      allocationFor s t =
        ((((s.freePointer + k) % s.tileAllocMap.length) / s.tileCountSqrt,
          ((s.freePointer + k) % s.tileAllocMap.length) % s.tileCountSqrt),
          allocState s t ((s.freePointer + k) % s.tileAllocMap.length))) ∧
    (umLookup t s.usageMap = none →
      (∀ j < s.tileAllocMap.length, s.tileAllocMap.getD j 0 ≠ 0) →
      allocationFor s t = ((0, 0), enlargeTexture s) ∧
      (enlargeTexture s).textureSize = 2 * s.textureSize ∧
      (enlargeTexture s).tileCountSqrt =
        (enlargeTexture s).textureSize / (s.tileSize + 2) ∧
      (enlargeTexture s).tileAllocMap =
        List.replicate
          ((enlargeTexture s).tileCountSqrt * (enlargeTexture s).tileCountSqrt) 0 ∧
      (enlargeTexture s).image = (fun _ => 0) ∧
      (enlargeTexture s).usageMap = [] ∧
      (enlargeTexture s).textureLost = true) := by
  refine ⟨?_, ?_, ?_⟩
  · intro i hi
    rw [allocationFor_found hl hi]
    rfl
  · intro k hnone hk hfree hocc
    have hscan := tileAllocScan_first_free k s.freePointer hwf.1 hk hfree hocc
    rw [allocationFor_fresh hl hnone hscan]
    rfl
  · intro hnone hfull
    have hscan := tileAllocScan_none_of_full 0 hwf.1 hfull
    refine ⟨?_, by show s.textureSize * 2 = 2 * s.textureSize; ring,
      rfl, rfl, rfl, rfl, rfl⟩
    rw [allocationFor_grow hl hnone hscan]
    show (tileCoords (enlargeTexture s) 0, enlargeTexture s) = _
    rw [tileCoords]
    simp

/-- Witness for C2: a fresh allocation at the cursor cell in `c2State`. -/
theorem claim_C2_allocate_witness :
    allocationFor c2State 7 = ((0, 0), allocState c2State 7 0) := by
  have h := (claim_C2_allocate c2State 7 rfl (by decide)).2.1 0 rfl (by decide)
    (by decide) (fun j hj => absurd hj (Nat.not_lt_zero j))
  simpa using h

/-- **C3**: while `textureLost` is set, `allocationFor` returns the sentinel
`(0,0)` without touching any state (in particular without adding a usage-map
entry), and `deallocateUsage` is a no-op; when the flag is clear,
`deallocateUsage` on a live token clears that token's bitmap cell and removes
the token's mapping (other tokens' mappings are untouched). -/
theorem claim_C3_lost_semantics {κ : Type} [DecidableEq κ] (s : Texgen κ) (t : κ) :
    (s.textureLost = true →
      allocationFor s t = ((0, 0), s) ∧ deallocateUsage s t = s) ∧
    (s.textureLost = false → UMNodup s → ∀ i, umLookup t s.usageMap = some i →
      (deallocateUsage s t).tileAllocMap = s.tileAllocMap.set i 0 ∧
      (deallocateUsage s t).tileAllocMap.getD i 0 = 0 ∧
      umLookup t (deallocateUsage s t).usageMap = none ∧
      (∀ t', t' ≠ t →
        umLookup t' (deallocateUsage s t).usageMap = umLookup t' s.usageMap)) := by
  constructor
  · intro hl
    exact ⟨allocationFor_lost t hl, deallocateUsage_lost t hl⟩
  · intro hl hnd i hi
    rw [deallocateUsage_some hl hi]
    refine ⟨rfl, getD_set_zero _ _, ?_, ?_⟩
    · exact umLookup_umErase_self hnd
    · intro t' ht'
      exact umLookup_umErase_ne ht' _

/-- Witness for C3 at concrete states. -/
theorem claim_C3_lost_semantics_witness :
    (allocationFor (enlargeTexture exTexgen) 5 = ((0, 0), enlargeTexture exTexgen) ∧
      deallocateUsage (enlargeTexture exTexgen) 5 = enlargeTexture exTexgen) ∧
    umLookup 0 (deallocateUsage exTexgen 0).usageMap = none :=
  ⟨(claim_C3_lost_semantics (enlargeTexture exTexgen) 5).1 rfl,
    ((claim_C3_lost_semantics exTexgen 0).2 rfl (by decide) 0 rfl).2.2.1⟩

/-! ## Claim C10: BlockSet tileSize establishment

`BlockSet` (blockset.js lines 469-736) keeps `var tileSize = NaN`; the public
getter (lines 665-668) returns 1 while it is NaN; `add` (lines 686-694)
establishes it from the first World type's `world.wx` and keeps the
established value on mismatch (only warning).  `NaN` is modelled as `none`. -/

inductive BTKind where
  | color : BTKind
  | world : Nat → BTKind
deriving DecidableEq

/-- The `tileSize` update performed by `BlockSet.add` for one new block type:
`if (tileSize == ts || isNaN(tileSize)) tileSize = ts; else warn (keep)`.
(`NaN == ts` is false in JS, so an established value always wins.) -/
def bsAddTileSize : Option Nat → BTKind → Option Nat
  | cur, BTKind.color => cur
  | none, BTKind.world ts => some ts
  | some t, BTKind.world ts => if t = ts then some ts else some t

/-- The public `tileSize` getter: 1 while unset (NaN), else the value. -/
def bsTileSizeGet : Option Nat → Nat
  | none => 1
  | some t => t

theorem bsAddTileSize_colors {l : List BTKind} (h : ∀ x ∈ l, x = BTKind.color) :
    ∀ acc, l.foldl bsAddTileSize acc = acc := by
  induction l with
  | nil => intro acc; rfl
  | cons x r ih =>
    intro acc
    have hx := h x (List.mem_cons_self x r)
    subst hx
    rw [List.foldl_cons]
    have hc : bsAddTileSize acc BTKind.color = acc := by cases acc <;> rfl
    rw [hc]
    exact ih (fun y hy => h y (List.mem_cons_of_mem _ hy)) acc

theorem bsAddTileSize_established (l : List BTKind) (t : Nat) :
    l.foldl bsAddTileSize (some t) = some t := by
  induction l generalizing t with
  | nil => rfl
  | cons x r ih =>
    cases x with
    | color => exact ih t
    | world ts =>
      show List.foldl bsAddTileSize (if t = ts then some ts else some t) r = some t
      by_cases h : t = ts
      · rw [if_pos h, h] at *
        exact ih ts
      · rw [if_neg h]
        exact ih t

/-- **C10**: for a BlockSet containing no World-type block the `tileSize`
getter returns 1; after the first World type is added the getter returns that
world's side length, and adding further World types (with any side length)
does not change the established value. -/
theorem claim_C10_tileSize_getter (pre post : List BTKind) (ts : Nat)
    (hpre : ∀ x ∈ pre, x = BTKind.color) :
    bsTileSizeGet (pre.foldl bsAddTileSize none) = 1 ∧
    bsTileSizeGet
      ((pre ++ BTKind.world ts :: post).foldl bsAddTileSize none) = ts := by
  constructor
  · rw [bsAddTileSize_colors hpre]
    rfl
  · rw [List.foldl_append, bsAddTileSize_colors hpre]
    show bsTileSizeGet (List.foldl bsAddTileSize (some ts) post) = ts
    rw [bsAddTileSize_established]
    rfl

/-- Witness for C10: one Color block, then a 2-world, then a mismatched
3-world: the getter stays 2. -/
theorem claim_C10_tileSize_getter_witness :
    bsTileSizeGet ([BTKind.color].foldl bsAddTileSize none) = 1 ∧
    bsTileSizeGet
      (([BTKind.color] ++ BTKind.world 2 :: [BTKind.world 3]).foldl
        bsAddTileSize none) = 2 :=
  claim_C10_tileSize_getter [BTKind.color] [BTKind.world 3] 2 (by decide)

/-! ## Claim C8: rotation cache winding

`rotateVertices` (blockset.js lines 278-292) walks the flat vertex array in
steps of three; for reflections it walks from the end backwards, reversing
the order of the vertex triples; `rotateTexcoords` (lines 294-304) reverses
the pair order for reflections and returns the input unchanged otherwise.
Vertex triples and texcoord pairs are modelled as structured lists;
`applyCubeSymmetry` and `applyCubeSymmetry.isReflection` are external
collaborators (spec section 6) abstracted as parameters. -/

/-- The reflection branch of `rotateVertices`: process the vertex list from
its last element to its first, pushing each transformed vertex. -/
def revMapV {α β : Type} (f : α → β) : List α → List β
  | [] => []
  | v :: r => revMapV f r ++ [f v]

/-- The reflection branch of `rotateTexcoords`: process the texcoord pairs
from last to first. -/
def revPairs {α : Type} : List α → List α
  | [] => []
  | p :: r => revPairs r ++ [p]

def rotateVertices (isReflection : Nat → Bool)
    (applyCubeSymmetry : Nat → ℚ → ℚ × ℚ × ℚ → ℚ × ℚ × ℚ) (rot : Nat)
    (vertices : List (ℚ × ℚ × ℚ)) : List (ℚ × ℚ × ℚ) :=
  if isReflection rot then revMapV (applyCubeSymmetry rot 1) vertices
  else vertices.map (applyCubeSymmetry rot 1)

def rotateTexcoords (isReflection : Nat → Bool) (rot : Nat)
    (texcoords : List (ℚ × ℚ)) : List (ℚ × ℚ) :=
  if isReflection rot then revPairs texcoords
  else texcoords

theorem revMapV_eq_reverse_map {α β : Type} (f : α → β) (l : List α) :
    revMapV f l = (l.map f).reverse := by
  induction l with
  | nil => rfl
  | cons v r ih => simp [revMapV, ih]

theorem revPairs_eq_reverse {α : Type} (l : List α) : revPairs l = l.reverse := by
  induction l with
  | nil => rfl
  | cons p r ih => simp [revPairs, ih]

/-- **C8**: for a pure rotation, `rotateVertices` applies the symmetry
transform to each vertex preserving order and `rotateTexcoords` returns the
texcoords unchanged; for a reflection, the output vertex order is the reverse
of the transform applied in forward order and the texcoord corner order is
reversed. -/
theorem claim_C8_reflection_winding (isReflection : Nat → Bool)
    (applyCubeSymmetry : Nat → ℚ → ℚ × ℚ × ℚ → ℚ × ℚ × ℚ) (rot : Nat)
    (vs : List (ℚ × ℚ × ℚ)) (tc : List (ℚ × ℚ)) :
    (isReflection rot = false →
      rotateVertices isReflection applyCubeSymmetry rot vs =
        vs.map (applyCubeSymmetry rot 1) ∧
      rotateTexcoords isReflection rot tc = tc) ∧
    (isReflection rot = true →
      rotateVertices isReflection applyCubeSymmetry rot vs =
        (vs.map (applyCubeSymmetry rot 1)).reverse ∧
      rotateTexcoords isReflection rot tc = tc.reverse) := by
  constructor
  · intro h
    rw [rotateVertices, rotateTexcoords, if_neg (by simp [h]), if_neg (by simp [h])]
    exact ⟨rfl, rfl⟩
  · intro h
    rw [rotateVertices, rotateTexcoords, if_pos (by simp [h]), if_pos (by simp [h])]
    exact ⟨revMapV_eq_reverse_map _ _, revPairs_eq_reverse _⟩

/-- Witness for C8 on a reflection variant and a rotation variant. -/
theorem claim_C8_reflection_winding_witness :
    (rotateVertices (fun _ => true) (fun _ _ v => v) 0 [(1, 0, 0), (0, 1, 0)] =
        [(0, 1, 0), (1, 0, 0)] ∧
      rotateTexcoords (fun _ => true) 0 [(0, 0), (1, 1)] = [(1, 1), (0, 0)]) ∧
    (rotateVertices (fun _ => false) (fun _ _ v => v) 0 [(1, 0, 0), (0, 1, 0)] =
        [(1, 0, 0), (0, 1, 0)] ∧
      rotateTexcoords (fun _ => false) 0 [(0, 0), (1, 1)] = [(0, 0), (1, 1)]) := by
  constructor
  · have h := (claim_C8_reflection_winding (fun _ => true) (fun _ _ v => v) 0
      [(1, 0, 0), (0, 1, 0)] [(0, 0), (1, 1)]).2 rfl
    simpa using h
  · have h := (claim_C8_reflection_winding (fun _ => false) (fun _ _ v => v) 0
      [(1, 0, 0), (0, 1, 0)] [(0, 0), (1, 1)]).1 rfl
    simpa using h

/-! ## Claim C6: clamp-border generation (`Texgen.completed`, lines 423-445)

`completed` computes `coords = imageCoordsFor(token)` and then copies, in the
frame of the local helper `pix(x,y) = (coords[0]+x + w*(coords[1]+y))*4`, the
outermost interior rows/columns of the tile into the 1-pixel ring around it:
first `copy(pix(x,-1),pix(x,0)); copy(pix(x,tileSize),pix(x,tileSize-1))` for
`x = 0..tileSize-1`, then the analogous column copies for
`y = -1..tileSize`. -/

/-- `pix(x, y)` of `Texgen.completed`. -/
def pixIdx (cx cy w x y : Int) : Int :=
  (cx + x + w * (cy + y)) * 4

/-- `function copy(dst, src)` of `Texgen.completed`: copies the four RGBA
components one after the other. -/
def copy4 (data : Int → Nat) (dst src : Int) : Int → Nat :=
  let d0 := Function.update data dst (data src)
  let d1 := Function.update d0 (dst + 1) (d0 (src + 1))
  let d2 := Function.update d1 (dst + 2) (d1 (src + 2))
  Function.update d2 (dst + 3) (d2 (src + 3))

/-- Reading outside the four written components is unaffected by `copy4`. -/
theorem copy4_ne (data : Int → Nat) (dst src i : Int)
    (h0 : i ≠ dst) (h1 : i ≠ dst + 1) (h2 : i ≠ dst + 2) (h3 : i ≠ dst + 3) :
    copy4 data dst src i = data i := by
  simp only [copy4]
  rw [Function.update_noteq h3, Function.update_noteq h2,
    Function.update_noteq h1, Function.update_noteq h0]

/-- Reading component `k` of the destination pixel after `copy4` yields
component `k` of the source pixel, provided the two pixels coincide or are
fully separated (always true for distinct pixel base indices, which are
multiples of 4). -/
theorem copy4_dst (data : Int → Nat) (dst src : Int)
    (hb : src = dst ∨ src + 3 < dst ∨ dst + 3 < src) :
    ∀ k : Int, 0 ≤ k → k ≤ 3 → copy4 data dst src (dst + k) = data (src + k) := by
  intro k hk0 hk3
  interval_cases k
  · simp only [copy4]
    rw [Function.update_noteq (by omega), Function.update_noteq (by omega),
      Function.update_noteq (by omega)]
    rw [show dst + 0 = dst by ring, Function.update_same,
      show src + 0 = src by ring]
  · simp only [copy4]
    rw [Function.update_noteq (by omega), Function.update_noteq (by omega),
      Function.update_same]
    rw [Function.update_noteq (by rcases hb with h | h | h <;> omega)]
  · simp only [copy4]
    rw [Function.update_noteq (by omega), Function.update_same]
    rw [Function.update_noteq (by rcases hb with h | h | h <;> omega),
      Function.update_noteq (by rcases hb with h | h | h <;> omega)]
  · simp only [copy4]
    rw [Function.update_same]
    rw [Function.update_noteq (by rcases hb with h | h | h <;> omega),
      Function.update_noteq (by rcases hb with h | h | h <;> omega),
      Function.update_noteq (by rcases hb with h | h | h <;> omega)]

/-- Two distinct `pix` cells within the tile-plus-border window are separated
by at least one full pixel stride (so their four-component blocks are
disjoint), provided the window fits in one row of the surface. -/
theorem pixIdx_block_sep (cx cy w ts : Int) (hw : ts + 2 ≤ w) (hts : 0 ≤ ts)
    (x y x' y' : Int) (hx1 : -1 ≤ x) (hx2 : x ≤ ts) (hx3 : -1 ≤ x') (hx4 : x' ≤ ts)
    (hne : x ≠ x' ∨ y ≠ y') :
    pixIdx cx cy w x y + 3 < pixIdx cx cy w x' y' ∨
    pixIdx cx cy w x' y' + 3 < pixIdx cx cy w x y := by
  have h4 : pixIdx cx cy w x' y' - pixIdx cx cy w x y
      = 4 * ((x' - x) + w * (y' - y)) := by
    unfold pixIdx
    ring
  have hw0 : (0 : Int) ≤ w := by omega
  rcases lt_trichotomy y y' with hy | hy | hy
  · obtain ⟨P, hP⟩ : ∃ P : Int, P = w * (y' - y) := ⟨_, rfl⟩
    rw [← hP] at h4
    have hPw : w ≤ P := by
      rw [hP]
      calc w = w * 1 := by ring
        _ ≤ w * (y' - y) := by
            exact mul_le_mul_of_nonneg_left (by omega) hw0
    left
    omega
  · subst hy
    have h4b : pixIdx cx cy w x' y - pixIdx cx cy w x y = 4 * (x' - x) := by
      unfold pixIdx
      ring
    rcases hne with hxx | hyy
    · rcases lt_or_gt_of_ne hxx with h | h
      · left
        omega
      · right
        omega
    · exact absurd rfl hyy
  · obtain ⟨P, hP⟩ : ∃ P : Int, P = w * (y' - y) := ⟨_, rfl⟩
    rw [← hP] at h4
    have hPw : P ≤ -w := by
      rw [hP]
      calc w * (y' - y) ≤ w * (-1) := by
            exact mul_le_mul_of_nonneg_left (by omega) hw0
        _ = -w := by ring
    right
    omega

/-- Any two components of distinct cells of the window are distinct. -/
theorem pixIdx_ne (cx cy w ts : Int) (hw : ts + 2 ≤ w) (hts : 0 ≤ ts)
    (x y x' y' : Int) (hx1 : -1 ≤ x) (hx2 : x ≤ ts) (hx3 : -1 ≤ x') (hx4 : x' ≤ ts)
    (hne : x ≠ x' ∨ y ≠ y') {k k' : Int} (hk0 : 0 ≤ k) (hk3 : k ≤ 3)
    (hk0' : 0 ≤ k') (hk3' : k' ≤ 3) :
    pixIdx cx cy w x y + k ≠ pixIdx cx cy w x' y' + k' := by
  rcases pixIdx_block_sep cx cy w ts hw hts x y x' y' hx1 hx2 hx3 hx4 hne with h | h <;>
    omega

/-- The first loop of `completed`: for `x = 0..n-1`,
`copy(pix(x,-1), pix(x,0)); copy(pix(x,tileSize), pix(x,tileSize-1))`. -/
def borderRows (cx cy w ts : Int) : Nat → (Int → Nat) → (Int → Nat)
  | 0, data => data
  | n + 1, data =>
    let d := borderRows cx cy w ts n data
    copy4 (copy4 d (pixIdx cx cy w (n : Int) (-1)) (pixIdx cx cy w (n : Int) 0))
      (pixIdx cx cy w (n : Int) ts) (pixIdx cx cy w (n : Int) (ts - 1))

/-- The second loop of `completed`: for `y = -1..tileSize` (iteration `m`
handles `y = m - 1`), `copy(pix(-1,y), pix(0,y));
copy(pix(tileSize,y), pix(tileSize-1,y))`. -/
def borderCols (cx cy w ts : Int) : Nat → (Int → Nat) → (Int → Nat)
  | 0, data => data
  | n + 1, data =>
    let d := borderCols cx cy w ts n data
    copy4 (copy4 d (pixIdx cx cy w (-1) ((n : Int) - 1)) (pixIdx cx cy w 0 ((n : Int) - 1)))
      (pixIdx cx cy w ts ((n : Int) - 1)) (pixIdx cx cy w (ts - 1) ((n : Int) - 1))

/-- `Texgen.completed` after the coordinates have been resolved: both border
loops over a tile of side `tileSize` whose `pix`-frame origin is `(cx, cy)`
on a surface of width `w`. -/
def completedCore (tileSize : Nat) (w cx cy : Int) (data : Int → Nat) : Int → Nat :=
  borderCols cx cy w (tileSize : Int) (tileSize + 2)
    (borderRows cx cy w (tileSize : Int) tileSize data)

theorem copy4_ne_blk (data : Int → Nat) (dst src i : Int)
    (h : ∀ k : Int, 0 ≤ k → k ≤ 3 → i ≠ dst + k) :
    copy4 data dst src i = data i :=
  copy4_ne data dst src i
    (by have := h 0 (by omega) (by omega); omega)
    (h 1 (by omega) (by omega)) (h 2 (by omega) (by omega))
    (h 3 (by omega) (by omega))

theorem borderRows_frame (cx cy w ts : Int) (n : Nat) (data : Int → Nat) (i : Int)
    (h : ∀ x : Nat, x < n → ∀ k : Int, 0 ≤ k → k ≤ 3 →
      i ≠ pixIdx cx cy w (x : Int) (-1) + k ∧ i ≠ pixIdx cx cy w (x : Int) ts + k) :
    borderRows cx cy w ts n data i = data i := by
  induction n with
  | zero => rfl
  | succ n ih =>
    simp only [borderRows]
    rw [copy4_ne_blk _ _ _ _ (fun k hk0 hk3 => (h n (Nat.lt_succ_self n) k hk0 hk3).2)]
    rw [copy4_ne_blk _ _ _ _ (fun k hk0 hk3 => (h n (Nat.lt_succ_self n) k hk0 hk3).1)]
    exact ih (fun x hx => h x (Nat.lt_succ_of_lt hx))

theorem borderCols_frame (cx cy w ts : Int) (n : Nat) (data : Int → Nat) (i : Int)
    (h : ∀ m : Nat, m < n → ∀ k : Int, 0 ≤ k → k ≤ 3 →
      i ≠ pixIdx cx cy w (-1) ((m : Int) - 1) + k ∧
      i ≠ pixIdx cx cy w ts ((m : Int) - 1) + k) :
    borderCols cx cy w ts n data i = data i := by
  induction n with
  | zero => rfl
  | succ n ih =>
    simp only [borderCols]
    rw [copy4_ne_blk _ _ _ _ (fun k hk0 hk3 => (h n (Nat.lt_succ_self n) k hk0 hk3).2)]
    rw [copy4_ne_blk _ _ _ _ (fun k hk0 hk3 => (h n (Nat.lt_succ_self n) k hk0 hk3).1)]
    exact ih (fun m hm => h m (Nat.lt_succ_of_lt hm))

theorem borderRows_val (cx cy w ts : Int) (hw : ts + 2 ≤ w) (hts : 1 ≤ ts)
    (data : Int → Nat) (x : Nat) (k : Int) (hk0 : 0 ≤ k) (hk3 : k ≤ 3) :
    ∀ n : Nat, (n : Int) ≤ ts → x < n →
    borderRows cx cy w ts n data (pixIdx cx cy w (x : Int) (-1) + k)
      = data (pixIdx cx cy w (x : Int) 0 + k) ∧
    borderRows cx cy w ts n data (pixIdx cx cy w (x : Int) ts + k)
      = data (pixIdx cx cy w (x : Int) (ts - 1) + k) := by
  intro n
  induction n with
  | zero =>
    intro _ hx
    exact absurd hx (Nat.not_lt_zero x)
  | succ n ih =>
    intro hn hx
    simp only [borderRows]
    by_cases hxn : x = n
    · subst hxn
      constructor
      · rw [copy4_ne_blk _ _ _ _ (fun k' hk0' hk3' =>
          pixIdx_ne cx cy w ts hw (by omega) (x : Int) (-1) (x : Int) ts
            (by omega) (by omega) (by omega) (by omega)
            (Or.inr (by omega)) hk0 hk3 hk0' hk3')]
        rw [copy4_dst _ _ _ (Or.inr (pixIdx_block_sep cx cy w ts hw (by omega)
          (x : Int) 0 (x : Int) (-1) (by omega) (by omega) (by omega) (by omega)
          (Or.inr (by omega)))) k hk0 hk3]
        exact borderRows_frame cx cy w ts x data _ (fun x' hx' k' hk0' hk3' =>
          ⟨pixIdx_ne cx cy w ts hw (by omega) (x : Int) 0 (x' : Int) (-1)
            (by omega) (by omega) (by omega) (by omega) (Or.inr (by omega))
            hk0 hk3 hk0' hk3',
          pixIdx_ne cx cy w ts hw (by omega) (x : Int) 0 (x' : Int) ts
            (by omega) (by omega) (by omega) (by omega) (Or.inr (by omega))
            hk0 hk3 hk0' hk3'⟩)
      · rw [copy4_dst _ _ _ (Or.inr (pixIdx_block_sep cx cy w ts hw (by omega)
          (x : Int) (ts - 1) (x : Int) ts (by omega) (by omega) (by omega) (by omega)
          (Or.inr (by omega)))) k hk0 hk3]
        rw [copy4_ne_blk _ _ _ _ (fun k' hk0' hk3' =>
          pixIdx_ne cx cy w ts hw (by omega) (x : Int) (ts - 1) (x : Int) (-1)
            (by omega) (by omega) (by omega) (by omega)
            (Or.inr (by omega)) hk0 hk3 hk0' hk3')]
        exact borderRows_frame cx cy w ts x data _ (fun x' hx' k' hk0' hk3' =>
          ⟨pixIdx_ne cx cy w ts hw (by omega) (x : Int) (ts - 1) (x' : Int) (-1)
            (by omega) (by omega) (by omega) (by omega) (Or.inr (by omega))
            hk0 hk3 hk0' hk3',
          pixIdx_ne cx cy w ts hw (by omega) (x : Int) (ts - 1) (x' : Int) ts
            (by omega) (by omega) (by omega) (by omega) (Or.inr (by omega))
            hk0 hk3 hk0' hk3'⟩)
    · have hxn' : x < n := by omega
      have hxi : (x : Int) ≠ (n : Int) := by
        intro hc
        exact hxn (by omega)
      constructor
      · rw [copy4_ne_blk _ _ _ _ (fun k' hk0' hk3' =>
          pixIdx_ne cx cy w ts hw (by omega) (x : Int) (-1) (n : Int) ts
            (by omega) (by omega) (by omega) (by omega) (Or.inr (by omega))
            hk0 hk3 hk0' hk3')]
        rw [copy4_ne_blk _ _ _ _ (fun k' hk0' hk3' =>
          pixIdx_ne cx cy w ts hw (by omega) (x : Int) (-1) (n : Int) (-1)
            (by omega) (by omega) (by omega) (by omega) (Or.inl hxi)
            hk0 hk3 hk0' hk3')]
        exact (ih (by omega) hxn').1
      · rw [copy4_ne_blk _ _ _ _ (fun k' hk0' hk3' =>
          pixIdx_ne cx cy w ts hw (by omega) (x : Int) ts (n : Int) ts
            (by omega) (by omega) (by omega) (by omega) (Or.inl hxi)
            hk0 hk3 hk0' hk3')]
        rw [copy4_ne_blk _ _ _ _ (fun k' hk0' hk3' =>
          pixIdx_ne cx cy w ts hw (by omega) (x : Int) ts (n : Int) (-1)
            (by omega) (by omega) (by omega) (by omega) (Or.inr (by omega))
            hk0 hk3 hk0' hk3')]
        exact (ih (by omega) hxn').2

theorem borderCols_val (cx cy w ts : Int) (hw : ts + 2 ≤ w) (hts : 1 ≤ ts)
    (data : Int → Nat) (m : Nat) (k : Int) (hk0 : 0 ≤ k) (hk3 : k ≤ 3) :
    ∀ n : Nat, m < n →
    borderCols cx cy w ts n data (pixIdx cx cy w (-1) ((m : Int) - 1) + k)
      = data (pixIdx cx cy w 0 ((m : Int) - 1) + k) ∧
    borderCols cx cy w ts n data (pixIdx cx cy w ts ((m : Int) - 1) + k)
      = data (pixIdx cx cy w (ts - 1) ((m : Int) - 1) + k) := by
  intro n
  induction n with
  | zero =>
    intro hm
    exact absurd hm (Nat.not_lt_zero m)
  | succ n ih =>
    intro hm
    simp only [borderCols]
    by_cases hmn : m = n
    · subst hmn
      constructor
      · rw [copy4_ne_blk _ _ _ _ (fun k' hk0' hk3' =>
          pixIdx_ne cx cy w ts hw (by omega) (-1) ((m : Int) - 1) ts ((m : Int) - 1)
            (by omega) (by omega) (by omega) (by omega) (Or.inl (by omega))
            hk0 hk3 hk0' hk3')]
        rw [copy4_dst _ _ _ (Or.inr (pixIdx_block_sep cx cy w ts hw (by omega)
          0 ((m : Int) - 1) (-1) ((m : Int) - 1) (by omega) (by omega) (by omega)
          (by omega) (Or.inl (by omega)))) k hk0 hk3]
        exact borderCols_frame cx cy w ts m data _ (fun m' hm' k' hk0' hk3' =>
          ⟨pixIdx_ne cx cy w ts hw (by omega) 0 ((m : Int) - 1) (-1) ((m' : Int) - 1)
            (by omega) (by omega) (by omega) (by omega) (Or.inl (by omega))
            hk0 hk3 hk0' hk3',
          pixIdx_ne cx cy w ts hw (by omega) 0 ((m : Int) - 1) ts ((m' : Int) - 1)
            (by omega) (by omega) (by omega) (by omega) (Or.inl (by omega))
            hk0 hk3 hk0' hk3'⟩)
      · rw [copy4_dst _ _ _ (Or.inr (pixIdx_block_sep cx cy w ts hw (by omega)
          (ts - 1) ((m : Int) - 1) ts ((m : Int) - 1) (by omega) (by omega)
          (by omega) (by omega) (Or.inl (by omega)))) k hk0 hk3]
        rw [copy4_ne_blk _ _ _ _ (fun k' hk0' hk3' =>
          pixIdx_ne cx cy w ts hw (by omega) (ts - 1) ((m : Int) - 1) (-1)
            ((m : Int) - 1) (by omega) (by omega) (by omega) (by omega)
            (Or.inl (by omega)) hk0 hk3 hk0' hk3')]
        exact borderCols_frame cx cy w ts m data _ (fun m' hm' k' hk0' hk3' =>
          ⟨pixIdx_ne cx cy w ts hw (by omega) (ts - 1) ((m : Int) - 1) (-1)
            ((m' : Int) - 1) (by omega) (by omega) (by omega) (by omega)
            (Or.inl (by omega)) hk0 hk3 hk0' hk3',
          pixIdx_ne cx cy w ts hw (by omega) (ts - 1) ((m : Int) - 1) ts
            ((m' : Int) - 1) (by omega) (by omega) (by omega) (by omega)
            (Or.inl (by omega)) hk0 hk3 hk0' hk3'⟩)
    · have hmn' : m < n := by omega
      have hmi : (m : Int) - 1 ≠ (n : Int) - 1 := by
        intro hc
        exact hmn (by omega)
      constructor
      · rw [copy4_ne_blk _ _ _ _ (fun k' hk0' hk3' =>
          pixIdx_ne cx cy w ts hw (by omega) (-1) ((m : Int) - 1) ts ((n : Int) - 1)
            (by omega) (by omega) (by omega) (by omega) (Or.inl (by omega))
            hk0 hk3 hk0' hk3')]
        rw [copy4_ne_blk _ _ _ _ (fun k' hk0' hk3' =>
          pixIdx_ne cx cy w ts hw (by omega) (-1) ((m : Int) - 1) (-1) ((n : Int) - 1)
            (by omega) (by omega) (by omega) (by omega) (Or.inr hmi)
            hk0 hk3 hk0' hk3')]
        exact (ih hmn').1
      · rw [copy4_ne_blk _ _ _ _ (fun k' hk0' hk3' =>
          pixIdx_ne cx cy w ts hw (by omega) ts ((m : Int) - 1) ts ((n : Int) - 1)
            (by omega) (by omega) (by omega) (by omega) (Or.inr hmi)
            hk0 hk3 hk0' hk3')]
        rw [copy4_ne_blk _ _ _ _ (fun k' hk0' hk3' =>
          pixIdx_ne cx cy w ts hw (by omega) ts ((m : Int) - 1) (-1) ((n : Int) - 1)
            (by omega) (by omega) (by omega) (by omega) (Or.inl (by omega))
            hk0 hk3 hk0' hk3')]
        exact (ih hmn').2

/-- **C6**: after `completed` runs on a tile, each pixel of the 1-pixel ring
one step outside a tile edge equals the nearest interior edge pixel, in all
four RGBA components: for `x ∈ [0, tileSize)`, border `(x,-1)` equals
interior `(x,0)` and border `(x,tileSize)` equals `(x,tileSize-1)`; for
`y ∈ [-1, tileSize]`, border `(-1,y)` equals `(0,y)` and border
`(tileSize,y)` equals `(tileSize-1,y)` — all in the `pix` coordinate frame
of `completed`. -/
theorem claim_C6_border_correctness (tileSize : Nat) (w cx cy : Int)
    (data : Int → Nat) (hts : 1 ≤ tileSize) (hw : (tileSize : Int) + 2 ≤ w) :
    (∀ x : Nat, x < tileSize → ∀ k : Int, 0 ≤ k → k ≤ 3 →
      (completedCore tileSize w cx cy data (pixIdx cx cy w (x : Int) (-1) + k)
        = completedCore tileSize w cx cy data (pixIdx cx cy w (x : Int) 0 + k)) ∧
      (completedCore tileSize w cx cy data
          (pixIdx cx cy w (x : Int) (tileSize : Int) + k)
        = completedCore tileSize w cx cy data
          (pixIdx cx cy w (x : Int) ((tileSize : Int) - 1) + k))) ∧
    (∀ y : Int, -1 ≤ y → y ≤ (tileSize : Int) → ∀ k : Int, 0 ≤ k → k ≤ 3 →
      (completedCore tileSize w cx cy data (pixIdx cx cy w (-1) y + k)
        = completedCore tileSize w cx cy data (pixIdx cx cy w 0 y + k)) ∧
      (completedCore tileSize w cx cy data
          (pixIdx cx cy w (tileSize : Int) y + k)
        = completedCore tileSize w cx cy data
          (pixIdx cx cy w ((tileSize : Int) - 1) y + k))) := by
  have hts1 : (1 : Int) ≤ (tileSize : Int) := by exact_mod_cast hts
  constructor
  · intro x hx k hk0 hk3
    have hxI : (x : Int) < (tileSize : Int) := by exact_mod_cast hx
    constructor
    · unfold completedCore
      rw [borderCols_frame cx cy w (tileSize : Int) (tileSize + 2) _ _
          (fun m' hm' k' hk0' hk3' =>
            ⟨pixIdx_ne cx cy w (tileSize : Int) hw (by omega) (x : Int) (-1) (-1)
              ((m' : Int) - 1) (by omega) (by omega) (by omega) (by omega)
              (Or.inl (by omega)) hk0 hk3 hk0' hk3',
            pixIdx_ne cx cy w (tileSize : Int) hw (by omega) (x : Int) (-1)
              (tileSize : Int) ((m' : Int) - 1) (by omega) (by omega) (by omega)
              (by omega) (Or.inl (by omega)) hk0 hk3 hk0' hk3'⟩),
        (borderRows_val cx cy w (tileSize : Int) hw hts1 data x k hk0 hk3
          tileSize (le_refl _) hx).1]
      rw [borderCols_frame cx cy w (tileSize : Int) (tileSize + 2) _ _
          (fun m' hm' k' hk0' hk3' =>
            ⟨pixIdx_ne cx cy w (tileSize : Int) hw (by omega) (x : Int) 0 (-1)
              ((m' : Int) - 1) (by omega) (by omega) (by omega) (by omega)
              (Or.inl (by omega)) hk0 hk3 hk0' hk3',
            pixIdx_ne cx cy w (tileSize : Int) hw (by omega) (x : Int) 0
              (tileSize : Int) ((m' : Int) - 1) (by omega) (by omega) (by omega)
              (by omega) (Or.inl (by omega)) hk0 hk3 hk0' hk3'⟩),
        borderRows_frame cx cy w (tileSize : Int) tileSize data _
          (fun x' hx' k' hk0' hk3' =>
            ⟨pixIdx_ne cx cy w (tileSize : Int) hw (by omega) (x : Int) 0 (x' : Int)
              (-1) (by omega) (by omega) (by omega)
              (by
                have : (x' : Int) < (tileSize : Int) := by exact_mod_cast hx'
                omega)
              (Or.inr (by omega)) hk0 hk3 hk0' hk3',
            pixIdx_ne cx cy w (tileSize : Int) hw (by omega) (x : Int) 0 (x' : Int)
              (tileSize : Int) (by omega) (by omega) (by omega)
              (by
                have : (x' : Int) < (tileSize : Int) := by exact_mod_cast hx'
                omega)
              (Or.inr (by omega)) hk0 hk3 hk0' hk3'⟩)]
    · unfold completedCore
      rw [borderCols_frame cx cy w (tileSize : Int) (tileSize + 2) _ _
          (fun m' hm' k' hk0' hk3' =>
            ⟨pixIdx_ne cx cy w (tileSize : Int) hw (by omega) (x : Int)
              (tileSize : Int) (-1) ((m' : Int) - 1) (by omega) (by omega)
              (by omega) (by omega) (Or.inl (by omega)) hk0 hk3 hk0' hk3',
            pixIdx_ne cx cy w (tileSize : Int) hw (by omega) (x : Int)
              (tileSize : Int) (tileSize : Int) ((m' : Int) - 1) (by omega)
              (by omega) (by omega) (by omega) (Or.inl (by omega))
              hk0 hk3 hk0' hk3'⟩),
        (borderRows_val cx cy w (tileSize : Int) hw hts1 data x k hk0 hk3
          tileSize (le_refl _) hx).2]
      rw [borderCols_frame cx cy w (tileSize : Int) (tileSize + 2) _ _
          (fun m' hm' k' hk0' hk3' =>
            ⟨pixIdx_ne cx cy w (tileSize : Int) hw (by omega) (x : Int)
              ((tileSize : Int) - 1) (-1) ((m' : Int) - 1) (by omega) (by omega)
              (by omega) (by omega) (Or.inl (by omega)) hk0 hk3 hk0' hk3',
            pixIdx_ne cx cy w (tileSize : Int) hw (by omega) (x : Int)
              ((tileSize : Int) - 1) (tileSize : Int) ((m' : Int) - 1) (by omega)
              (by omega) (by omega) (by omega) (Or.inl (by omega))
              hk0 hk3 hk0' hk3'⟩),
        borderRows_frame cx cy w (tileSize : Int) tileSize data _
          (fun x' hx' k' hk0' hk3' =>
            ⟨pixIdx_ne cx cy w (tileSize : Int) hw (by omega) (x : Int)
              ((tileSize : Int) - 1) (x' : Int) (-1) (by omega) (by omega)
              (by omega)
              (by
                have : (x' : Int) < (tileSize : Int) := by exact_mod_cast hx'
                omega)
              (Or.inr (by omega)) hk0 hk3 hk0' hk3',
            pixIdx_ne cx cy w (tileSize : Int) hw (by omega) (x : Int)
              ((tileSize : Int) - 1) (x' : Int) (tileSize : Int) (by omega)
              (by omega) (by omega)
              (by
                have : (x' : Int) < (tileSize : Int) := by exact_mod_cast hx'
                omega)
              (Or.inr (by omega)) hk0 hk3 hk0' hk3'⟩)]
  · intro y hy1 hy2 k hk0 hk3
    obtain ⟨m, hm⟩ : ∃ m : Nat, (m : Int) = y + 1 :=
      ⟨(y + 1).toNat, Int.toNat_of_nonneg (by omega)⟩
    have hym : y = (m : Int) - 1 := by omega
    have hmlt : m < tileSize + 2 := by omega
    subst hym
    constructor
    · unfold completedCore
      rw [(borderCols_val cx cy w (tileSize : Int) hw hts1 _ m k hk0 hk3
          (tileSize + 2) hmlt).1,
        borderCols_frame cx cy w (tileSize : Int) (tileSize + 2) _ _
          (fun m' hm' k' hk0' hk3' =>
            ⟨pixIdx_ne cx cy w (tileSize : Int) hw (by omega) 0 ((m : Int) - 1)
              (-1) ((m' : Int) - 1) (by omega) (by omega) (by omega) (by omega)
              (Or.inl (by omega)) hk0 hk3 hk0' hk3',
            pixIdx_ne cx cy w (tileSize : Int) hw (by omega) 0 ((m : Int) - 1)
              (tileSize : Int) ((m' : Int) - 1) (by omega) (by omega) (by omega)
              (by omega) (Or.inl (by omega)) hk0 hk3 hk0' hk3'⟩)]
    · unfold completedCore
      rw [(borderCols_val cx cy w (tileSize : Int) hw hts1 _ m k hk0 hk3
          (tileSize + 2) hmlt).2,
        borderCols_frame cx cy w (tileSize : Int) (tileSize + 2) _ _
          (fun m' hm' k' hk0' hk3' =>
            ⟨pixIdx_ne cx cy w (tileSize : Int) hw (by omega) ((tileSize : Int) - 1)
              ((m : Int) - 1) (-1) ((m' : Int) - 1) (by omega) (by omega)
              (by omega) (by omega) (Or.inl (by omega)) hk0 hk3 hk0' hk3',
            pixIdx_ne cx cy w (tileSize : Int) hw (by omega) ((tileSize : Int) - 1)
              ((m : Int) - 1) (tileSize : Int) ((m' : Int) - 1) (by omega)
              (by omega) (by omega) (by omega) (Or.inl (by omega))
              hk0 hk3 hk0' hk3'⟩)]

/-- Witness for C6 on a concrete 1×1 tile in an 8-wide surface. -/
theorem claim_C6_border_correctness_witness :
    (completedCore 1 8 1 1 (fun i => i.toNat) (pixIdx 1 1 8 0 (-1) + 2)
      = completedCore 1 8 1 1 (fun i => i.toNat) (pixIdx 1 1 8 0 0 + 2)) ∧
    (completedCore 1 8 1 1 (fun i => i.toNat) (pixIdx 1 1 8 (-1) 1 + 0)
      = completedCore 1 8 1 1 (fun i => i.toNat) (pixIdx 1 1 8 0 1 + 0)) :=
  ⟨((claim_C6_border_correctness 1 8 1 1 (fun i => i.toNat) (by decide)
      (by decide)).1 0 (by decide) 2 (by decide) (by decide)).1,
    ((claim_C6_border_correctness 1 8 1 1 (fun i => i.toNat) (by decide)
      (by decide)).2 1 (by decide) (by decide) 0 (by decide) (by decide)).1⟩

/-! ## The face synthesizer (`rebuildOne`, blockset.js lines 479-635)

Modelling notes:
* The three `TILE_MAPPINGS` matrices are permutation matrices; applied by
  `mat4.multiplyVec3` they map tile coordinates `(u,v,layer)` to world
  coordinates `(u,v,layer)`, `(layer,u,v)` and `(v,layer,u)` for the z, x
  and y faces respectively (they have no translation part, so the same
  permutation also transforms the view-direction vectors and the quad
  vertices).
* Usage-index strings `blockID.toString()` and `blockID+","+dimName+","+layer`
  become the structured key type `UsageTok` (the string encoding is injective
  on these values).
* The nested voxel world is consumed through `world.gt(x,y,z).writeColor(255,
  texData, c)` and `world.opaque(x,y,z)` only; it is modelled as a function
  to the four written bytes plus an opacity predicate.
* The per-layer visibility flags are set from `texData[c+3] > 0` immediately
  after the same iteration wrote that byte, so they equal the pure predicate
  "some pixel of the slice has nonzero alpha and a non-opaque neighbour on
  that side"; the model uses that predicate directly.
* `rebuildOne` captures `texgen.image.data`/`width` on entry.  If a
  mid-rebuild growth occurs (`textureLost` raised), the source keeps writing
  slice pixels into the captured, now discarded buffer; the model then drops
  those writes (the discarded buffer is unobservable — flags are read back
  from the bytes just written in the same iteration).  `completed` goes
  through `self.image` (the live buffer) and is modelled that way.  This
  models `rebuildOne` as invoked by `freshenTexture`, i.e. entered with
  `textureLost` false. -/

inductive Axis where
  | z : Axis
  | x : Axis
  | y : Axis
deriving DecidableEq

/-- `TILE_MAPPINGS` matrix application (input `(u, v, layer)`; output world
coordinates), polymorphic so that it applies both to `Int` cell coordinates
and to `ℚ` vertex coordinates. -/
def axisPerm {α : Type} : Axis → α × α × α → α × α × α
  | Axis.z, (u, v, l) => (u, v, l)
  | Axis.x, (u, v, l) => (l, u, v)
  | Axis.y, (u, v, l) => (v, l, u)

def dimName : Axis → String
  | Axis.z => "z"
  | Axis.x => "x"
  | Axis.y => "y"

/-- Usage tokens: `blockID.toString()` for color tiles,
`blockID + "," + dimName + "," + layer` for world slices. -/
inductive UsageTok where
  | colorTok : Nat → UsageTok
  | sliceTok : Nat → Axis → Nat → UsageTok
deriving DecidableEq

/-- The four bytes `writeColor(255, texData, c)` stores for one voxel. -/
structure RGBA where
  r : Nat
  g : Nat
  b : Nat
  a : Nat
deriving DecidableEq

/-- The nested voxel container, consumed as per spec section 6: a per-cell
color accessor (already scaled to bytes) and an opacity predicate
(`world.opaque`). -/
structure WorldM where
  rgba : Int → Int → Int → RGBA
  opaq : Int → Int → Int → Bool

/-- One geometry record `{vertices, texcoords}`. -/
structure Geom where
  vertices : List (ℚ × ℚ × ℚ)
  texcoords : List (ℚ × ℚ)
deriving DecidableEq

def emptyGeom : Geom := { vertices := [], texcoords := [] }

/-- `thisLayerNotEmptyL`: some pixel of the slice has nonzero written alpha
and its low-side view neighbour (offset by `transform·(0,0,-1)`) is not
opaque. -/
def layerNotEmptyL (w : WorldM) (ax : Axis) (ts layer : Nat) : Bool :=
  (List.range ts).any fun u =>
    (List.range ts).any fun v =>
      let p := axisPerm ax ((u : Int), (v : Int), (layer : Int))
      let d := axisPerm ax ((0 : Int), 0, -1)
      0 < (w.rgba p.1 p.2.1 p.2.2).a ∧
        ¬ (w.opaq (p.1 + d.1) (p.2.1 + d.2.1) (p.2.2 + d.2.2) = true)

/-- `thisLayerNotEmptyH`: likewise with view offset `transform·(0,0,+1)`. -/
def layerNotEmptyH (w : WorldM) (ax : Axis) (ts layer : Nat) : Bool :=
  (List.range ts).any fun u =>
    (List.range ts).any fun v =>
      let p := axisPerm ax ((u : Int), (v : Int), (layer : Int))
      let d := axisPerm ax ((0 : Int), 0, 1)
      0 < (w.rgba p.1 p.2.1 p.2.2).a ∧
        ¬ (w.opaq (p.1 + d.1) (p.2.1 + d.2.1) (p.2.2 + d.2.2) = true)

/-- The four sequential byte stores of `writeColor(255, target, c)`. -/
def writeRGBA (img : Int → Nat) (c : Int) (col : RGBA) : Int → Nat :=
  Function.update (Function.update (Function.update (Function.update img
    c col.r) (c + 1) col.g) (c + 2) col.b) (c + 3) col.a

/-- Inner `v` loop of the slice pixel extraction:
`c = ((pixu+u) * texWidth + pixv+v) * 4; world.gt(T(u,v,layer)).writeColor`. -/
def slicePixRow (w : WorldM) (ax : Axis) (layer : Nat) (texW pixu pixv : Int)
    (u : Nat) : Nat → (Int → Nat) → (Int → Nat)
  | 0, img => img
  | v + 1, img =>
    let img1 := slicePixRow w ax layer texW pixu pixv u v img
    let p := axisPerm ax ((u : Int), (v : Int), (layer : Int))
    writeRGBA img1 (((pixu + (u : Int)) * texW + pixv + (v : Int)) * 4)
      (w.rgba p.1 p.2.1 p.2.2)

/-- Outer `u` loop of the slice pixel extraction. -/
def slicePixels (w : WorldM) (ax : Axis) (layer : Nat) (texW pixu pixv : Int)
    (ts : Nat) : Nat → (Int → Nat) → (Int → Nat)
  | 0, img => img
  | u + 1, img =>
    slicePixRow w ax layer texW pixu pixv u ts
      (slicePixels w ax layer texW pixu pixv ts u img)

/-- `this.completed` (lines 423-445): resolve the tile coordinates and run
both border loops on the current surface (`w = self.image.width`). -/
def completedF (st : Texgen UsageTok) (tok : UsageTok) : Texgen UsageTok :=
  let r := imageCoordsFor st tok
  let st1 := r.2
  { st1 with
    image := completedCore st1.tileSize (st1.textureSize : Int)
      ((r.1.1 : Int)) ((r.1.2 : Int)) st1.image }

/-- `calcTexCoords(texgen, usageIndex, flipped)` (lines 316-331). -/
def calcTexCoords (st : Texgen UsageTok) (tok : UsageTok) (flipped : Bool) :
    List (ℚ × ℚ) × Texgen UsageTok :=
  let r := uvFor st tok
  let st1 := r.2
  let tus : ℚ := (st1.tileSize : ℚ) / (st1.textureSize : ℚ)
  let texO : ℚ := if flipped then tus else 0
  let texD : ℚ := if flipped then 0 else tus
  let uo : ℚ := r.1.2
  let vo : ℚ := r.1.1
  ([(uo + texO, vo + texO), (uo + tus, vo + 0), (uo + 0, vo + tus),
    (uo + texD, vo + texD), (uo + 0, vo + tus), (uo + tus, vo + 0)], st1)

/-- The six vertices pushed by `pushQuad` (lines 488-500), already mapped
through the face transform. -/
def quadVertices (ax : Axis) (flipped : Bool) (depth : ℚ) : List (ℚ × ℚ × ℚ) :=
  let a : ℚ := if flipped then 1 else 0
  let b : ℚ := if flipped then 0 else 1
  [axisPerm ax (a, a, depth), axisPerm ax (0, 1, depth), axisPerm ax (1, 0, depth),
    axisPerm ax (b, b, depth), axisPerm ax (1, 0, depth), axisPerm ax (0, 1, depth)]

/-- `pushQuad(vertices, texcoords, flipped, transform, depth, usageIndex)`:
appends the texcoords of the tile and the six transformed vertices. -/
def pushQuadF (st : Texgen UsageTok) (tok : UsageTok) (flipped : Bool)
    (ax : Axis) (depth : ℚ) (g : Geom) : Geom × Texgen UsageTok :=
  let r := calcTexCoords st tok flipped
  ({ vertices := g.vertices ++ quadVertices ax flipped depth,
     texcoords := g.texcoords ++ r.1 }, r.2)

/-- `!thisLayerNotEmptyL && !thisLayerNotEmptyH` (line 587): the slice is
blank or fully obscured and its tile is released. -/
def sliceEmpty (w : WorldM) (ax : Axis) (ts layer : Nat) : Prop :=
  layerNotEmptyL w ax ts layer = false ∧ layerNotEmptyH w ax ts layer = false

instance (w : WorldM) (ax : Axis) (ts layer : Nat) :
    Decidable (sliceEmpty w ax ts layer) := by
  unfold sliceEmpty
  infer_instance

/-- `thisLayerNotEmptyL && (!blockType.opaque || layer == 0)` (line 594). -/
def canEmitL (w : WorldM) (opq : Bool) (ts : Nat) (ax : Axis) (layer : Nat) : Prop :=
  layerNotEmptyL w ax ts layer = true ∧ (opq = false ∨ layer = 0)

instance (w : WorldM) (opq : Bool) (ts : Nat) (ax : Axis) (layer : Nat) :
    Decidable (canEmitL w opq ts ax layer) := by
  unfold canEmitL
  infer_instance

/-- `thisLayerNotEmptyH && (!blockType.opaque || layer == tileLastIndex)`
(line 597). -/
def canEmitH (w : WorldM) (opq : Bool) (ts : Nat) (ax : Axis) (layer : Nat) : Prop :=
  layerNotEmptyH w ax ts layer = true ∧ (opq = false ∨ layer = ts - 1)

instance (w : WorldM) (opq : Bool) (ts : Nat) (ax : Axis) (layer : Nat) :
    Decidable (canEmitH w opq ts ax layer) := by
  unfold canEmitH
  infer_instance

/-- `sliceWorld(dimName, layer, transform, texcoordsL, texcoordsH, verticesL,
verticesH)` (lines 549-605): allocate the slice tile, extract the surface
plane into the pixel buffer, then either release the tile (layer empty from
both sides) or finalize its border and push the guarded quads. -/
def sliceWorldF (w : WorldM) (opq : Bool) (bid : Nat) (ts : Nat) (texW : Int)
    (ax : Axis) (layer : Nat) (st : Texgen UsageTok) (gL gH : Geom) :
    Texgen UsageTok × Geom × Geom :=
  let tok := UsageTok.sliceTok bid ax layer
  let r := imageCoordsFor st tok
  let st1 := r.2
  let st2 :=
    if st1.textureLost then st1
    else
      { st1 with
        image := slicePixels w ax layer texW ((r.1.1 : Int)) ((r.1.2 : Int))
          ts ts st1.image }
  if sliceEmpty w ax ts layer then
    (deallocateUsage st2 tok, gL, gH)
  else
    let st3 := completedF st2 tok
    let rL :=
      if canEmitL w opq ts ax layer then
        pushQuadF st3 tok false ax ((layer : ℚ) / (ts : ℚ)) gL
      else (gL, st3)
    let rH :=
      if canEmitH w opq ts ax layer then
        pushQuadF rL.2 tok true ax (((layer : ℚ) + 1) / (ts : ℚ)) gH
      else (gH, rL.2)
    (rH.2, rL.1, rH.1)

/-- The per-layer loop of the non-opaque branch (lines 619-622), with its
`if (texgen.textureLost) return;` pre-check: `none` means the axis callback
returned early and its `faceData` entries were never assigned. -/
def sliceLayersLoop (w : WorldM) (opq : Bool) (bid : Nat) (ts : Nat)
    (texW : Int) (ax : Axis) :
    List Nat → Texgen UsageTok → Geom → Geom →
      Texgen UsageTok × Option (Geom × Geom)
  | [], st, gL, gH => (st, some (gL, gH))
  | l :: rest, st, gL, gH =>
    if st.textureLost then (st, none)
    else
      let r := sliceWorldF w opq bid ts texW ax l st gL gH
      sliceLayersLoop w opq bid ts texW ax rest r.1 r.2.1 r.2.2

/-- One iteration of the `TILE_MAPPINGS.forEach` callback for a world block
(lines 607-626): the opaque branch slices only layers `0` and `tileSize-1`
(with a single lost-check before both), the transparent branch slices every
layer with a check before each. -/
def rebuildAxisW (w : WorldM) (opq : Bool) (bid : Nat) (ts : Nat) (texW : Int)
    (ax : Axis) (st : Texgen UsageTok) :
    Texgen UsageTok × Option (Geom × Geom) :=
  if opq then
    if st.textureLost then (st, none)
    else
      let r1 := sliceWorldF w opq bid ts texW ax 0 st emptyGeom emptyGeom
      let r2 := sliceWorldF w opq bid ts texW ax (ts - 1) r1.1 r1.2.1 r1.2.2
      (r2.1, some (r2.2.1, r2.2.2))
  else
    sliceLayersLoop w opq bid ts texW ax (List.range ts) st emptyGeom emptyGeom

/-- The `faceData["l"+dimName] / ["h"+dimName]` entries one axis produces. -/
def axisEntries (ax : Axis) : Option (Geom × Geom) → List (String × Geom)
  | none => []
  | some (gl, gh) => [("l" ++ dimName ax, gl), ("h" ++ dimName ax, gh)]

/-- The world branch of `rebuildOne` (lines 538-631): slice all three axes in
`TILE_MAPPINGS` order, producing the canonical (rotation 0) face data. -/
def rebuildWorldF (w : WorldM) (opq : Bool) (bid : Nat)
    (st : Texgen UsageTok) : Texgen UsageTok × List (String × Geom) :=
  let texW : Int := (st.textureSize : Int)
  let ts := st.tileSize
  let rz := rebuildAxisW w opq bid ts texW Axis.z st
  let rx := rebuildAxisW w opq bid ts texW Axis.x rz.1
  let ry := rebuildAxisW w opq bid ts texW Axis.y rx.1
  (ry.1,
    axisEntries Axis.z rz.2 ++ axisEntries Axis.x rx.2 ++ axisEntries Axis.y ry.2)

/-- Inner `v` loop of the color tile fill (lines 512-519). -/
def fillColorRow (col : RGBA) (texW pixu pixv : Int) (u : Nat) :
    Nat → (Int → Nat) → (Int → Nat)
  | 0, img => img
  | v + 1, img =>
    writeRGBA (fillColorRow col texW pixu pixv u v img)
      (((pixu + (u : Int)) * texW + pixv + (v : Int)) * 4) col

/-- Outer `u` loop of the color tile fill. -/
def fillColorPixels (col : RGBA) (texW pixu pixv : Int) (ts : Nat) :
    Nat → (Int → Nat) → (Int → Nat)
  | 0, img => img
  | u + 1, img =>
    fillColorRow col texW pixu pixv u ts (fillColorPixels col texW pixu pixv ts u img)

/-- The per-axis face construction of the color branch (lines 522-534): one
low quad at depth 0 and one high (flipped) quad at depth 1, sharing a single
texcoord list (the texcoords of the second `pushQuad` call are discarded). -/
def colorAxisFaces (st : Texgen UsageTok) (tok : UsageTok) (ax : Axis) :
    Texgen UsageTok × Geom × Geom :=
  let r1 := calcTexCoords st tok false
  let r2 := calcTexCoords r1.2 tok true
  (r2.2,
    { vertices := quadVertices ax false 0, texcoords := r1.1 },
    { vertices := quadVertices ax true 1, texcoords := r1.1 })

/-- The color branch of `rebuildOne` (lines 502-537): fill the block's single
tile with the flat color, finalize its border, and emit two quads per axis
(the same face data is used for all 24 rotation variants). -/
def rebuildColorF (col : RGBA) (bid : Nat) (st : Texgen UsageTok) :
    Texgen UsageTok × List (String × Geom) :=
  let texW : Int := (st.textureSize : Int)
  let ts := st.tileSize
  let tok := UsageTok.colorTok bid
  let r := imageCoordsFor st tok
  let st1 := r.2
  let st2 :=
    if st1.textureLost then st1
    else
      { st1 with
        image := fillColorPixels col texW ((r.1.1 : Int)) ((r.1.2 : Int))
          ts ts st1.image }
  let st3 := completedF st2 tok
  let rz := colorAxisFaces st3 tok Axis.z
  let rx := colorAxisFaces rz.1 tok Axis.x
  let ry := colorAxisFaces rx.1 tok Axis.y
  (ry.1,
    [("l" ++ dimName Axis.z, rz.2.1), ("h" ++ dimName Axis.z, rz.2.2),
     ("l" ++ dimName Axis.x, rx.2.1), ("h" ++ dimName Axis.x, rx.2.2),
     ("l" ++ dimName Axis.y, ry.2.1), ("h" ++ dimName Axis.y, ry.2.2)])

/-- A block type as the synthesizer sees it: a flat color (bytes), or a
nested world together with its derived `opaque` flag. -/
inductive BlockTypeM where
  | colorType : RGBA → BlockTypeM
  | worldType : WorldM → Bool → BlockTypeM

/-- `rebuildOne(blockID)` (lines 479-635), dispatching on the block type
variant; returns the updated allocator state and the canonical face data. -/
def rebuildOneF (bt : BlockTypeM) (bid : Nat) (st : Texgen UsageTok) :
    Texgen UsageTok × List (String × Geom) :=
  match bt with
  | BlockTypeM.colorType col => rebuildColorF col bid st
  | BlockTypeM.worldType w opq => rebuildWorldF w opq bid st

/-- `rotateFaceData(rot, faceData)` (lines 306-313). -/
def rotateFaceData (isReflection : Nat → Bool)
    (applyCubeSymmetry : Nat → ℚ → ℚ × ℚ × ℚ → ℚ × ℚ × ℚ) (rot : Nat)
    (fd : List (String × Geom)) : List (String × Geom) :=
  fd.map fun p =>
    (p.1,
      { vertices := rotateVertices isReflection applyCubeSymmetry rot p.2.vertices
        texcoords := rotateTexcoords isReflection rot p.2.texcoords })

/-! ## Claim C4: opaque blocks emit only outer-layer quads -/

theorem layerNotEmptyL_ts_zero (w : WorldM) (ax : Axis) (layer : Nat) :
    layerNotEmptyL w ax 0 layer = false := rfl

theorem layerNotEmptyH_ts_zero (w : WorldM) (ax : Axis) (layer : Nat) :
    layerNotEmptyH w ax 0 layer = false := rfl

theorem layerNotEmptyH_pos {w : WorldM} {ax : Axis} {ts layer : Nat}
    (h : layerNotEmptyH w ax ts layer = true) : 1 ≤ ts := by
  by_contra hc
  have hz : ts = 0 := by omega
  subst hz
  rw [layerNotEmptyH_ts_zero] at h
  cases h

theorem sliceWorldF_vertsL (w : WorldM) (opq : Bool) (bid ts : Nat) (texW : Int)
    (ax : Axis) (layer : Nat) (st : Texgen UsageTok) (gL gH : Geom) :
    ((sliceWorldF w opq bid ts texW ax layer st gL gH).2.1).vertices =
      if canEmitL w opq ts ax layer then
        gL.vertices ++ quadVertices ax false ((layer : ℚ) / (ts : ℚ))
      else gL.vertices := by
  simp only [sliceWorldF]
  by_cases hE : sliceEmpty w ax ts layer
  · rw [if_pos hE, if_neg (fun hc : canEmitL w opq ts ax layer => by
      have h1 := hc.1
      rw [hE.1] at h1
      cases h1)]
  · rw [if_neg hE]
    by_cases hL : canEmitL w opq ts ax layer
    · rw [if_pos hL, if_pos hL]
      simp [pushQuadF]
    · rw [if_neg hL, if_neg hL]

theorem sliceWorldF_vertsH (w : WorldM) (opq : Bool) (bid ts : Nat) (texW : Int)
    (ax : Axis) (layer : Nat) (st : Texgen UsageTok) (gL gH : Geom) :
    ((sliceWorldF w opq bid ts texW ax layer st gL gH).2.2).vertices =
      if canEmitH w opq ts ax layer then
        gH.vertices ++ quadVertices ax true (((layer : ℚ) + 1) / (ts : ℚ))
      else gH.vertices := by
  simp only [sliceWorldF]
  by_cases hE : sliceEmpty w ax ts layer
  · rw [if_pos hE, if_neg (fun hc : canEmitH w opq ts ax layer => by
      have h1 := hc.1
      rw [hE.2] at h1
      cases h1)]
  · rw [if_neg hE]
    by_cases hH : canEmitH w opq ts ax layer
    · rw [if_pos hH, if_pos hH]
      simp [pushQuadF]
    · rw [if_neg hH, if_neg hH]

theorem mem_axisEntries {ax : Axis} {o : Option (Geom × Geom)} {k : String}
    {g : Geom} (h : (k, g) ∈ axisEntries ax o) :
    ∃ gl gh, o = some (gl, gh) ∧
      ((k = "l" ++ dimName ax ∧ g = gl) ∨ (k = "h" ++ dimName ax ∧ g = gh)) := by
  cases o with
  | none => simp [axisEntries] at h
  | some p =>
    obtain ⟨gl, gh⟩ := p
    refine ⟨gl, gh, rfl, ?_⟩
    simp only [axisEntries, List.mem_cons, List.mem_singleton] at h
    rcases h with h | h | h
    · exact Or.inl ⟨congrArg Prod.fst h, congrArg Prod.snd h⟩
    · exact Or.inr ⟨congrArg Prod.fst h, congrArg Prod.snd h⟩
    · cases h

theorem lkey_inj {ax ax' : Axis}
    (h : ("l" ++ dimName ax : String) = "l" ++ dimName ax') : ax = ax' := by
  cases ax <;> cases ax' <;> revert h <;> decide

theorem hkey_inj {ax ax' : Axis}
    (h : ("h" ++ dimName ax : String) = "h" ++ dimName ax') : ax = ax' := by
  cases ax <;> cases ax' <;> revert h <;> decide

theorem lkey_ne_hkey (ax ax' : Axis) :
    ("l" ++ dimName ax : String) ≠ "h" ++ dimName ax' := by
  cases ax <;> cases ax' <;> decide

theorem hkey_ne_lkey (ax ax' : Axis) :
    ("h" ++ dimName ax : String) ≠ "l" ++ dimName ax' := by
  cases ax <;> cases ax' <;> decide

theorem high_depth_eq_one {ts : Nat} (h : 1 ≤ ts) :
    (((ts - 1 : Nat) : ℚ) + 1) / (ts : ℚ) = 1 := by
  have h1 : ((ts - 1 : Nat) : ℚ) = (ts : ℚ) - 1 := by
    push_cast [h]
    ring
  rw [h1, sub_add_cancel]
  exact div_self (Nat.cast_ne_zero.mpr (by omega))

/-- The low/high vertex lists an opaque block can produce for one axis:
nothing, one outer quad, or (only when `tileSize = 1`, where layer 0 and
layer `tileSize-1` coincide and are sliced twice) the outer quad twice. -/
theorem rebuildAxisW_opaque_verts (w : WorldM) (bid ts : Nat) (texW : Int)
    (ax : Axis) (st : Texgen UsageTok) {gl gh : Geom}
    (h : (rebuildAxisW w true bid ts texW ax st).2 = some (gl, gh)) :
    (gl.vertices = [] ∨ gl.vertices = quadVertices ax false 0 ∨
      gl.vertices = quadVertices ax false 0 ++ quadVertices ax false 0) ∧
    (gh.vertices = [] ∨ gh.vertices = quadVertices ax true 1 ∨
      gh.vertices = quadVertices ax true 1 ++ quadVertices ax true 1) := by
  rw [rebuildAxisW, if_pos rfl] at h
  by_cases hlost : st.textureLost
  · rw [if_pos hlost] at h
    cases h
  · rw [if_neg hlost] at h
    have hgl : gl =
        (sliceWorldF w true bid ts texW ax (ts - 1)
          (sliceWorldF w true bid ts texW ax 0 st emptyGeom emptyGeom).1
          (sliceWorldF w true bid ts texW ax 0 st emptyGeom emptyGeom).2.1
          (sliceWorldF w true bid ts texW ax 0 st emptyGeom emptyGeom).2.2).2.1 := by
      injection h with h'
      exact (congrArg Prod.fst h').symm
    have hgh : gh =
        (sliceWorldF w true bid ts texW ax (ts - 1)
          (sliceWorldF w true bid ts texW ax 0 st emptyGeom emptyGeom).1
          (sliceWorldF w true bid ts texW ax 0 st emptyGeom emptyGeom).2.1
          (sliceWorldF w true bid ts texW ax 0 st emptyGeom emptyGeom).2.2).2.2 := by
      injection h with h'
      exact (congrArg (fun p => p.2) h').symm
    constructor
    · rw [hgl, sliceWorldF_vertsL, sliceWorldF_vertsL]
      by_cases h1 : canEmitL w true ts ax (ts - 1)
      · rw [if_pos h1]
        have hz : ts - 1 = 0 := by
          rcases h1.2 with hc | hc
          · cases hc
          · exact hc
        by_cases h0 : canEmitL w true ts ax 0
        · rw [if_pos h0]
          refine Or.inr (Or.inr ?_)
          simp only [emptyGeom, List.nil_append, hz]
          norm_num
        · rw [if_neg h0]
          refine Or.inr (Or.inl ?_)
          simp only [emptyGeom, List.nil_append, hz]
          norm_num
      · rw [if_neg h1]
        by_cases h0 : canEmitL w true ts ax 0
        · rw [if_pos h0]
          refine Or.inr (Or.inl ?_)
          simp only [emptyGeom, List.nil_append]
          norm_num
        · rw [if_neg h0]
          exact Or.inl rfl
    · rw [hgh, sliceWorldF_vertsH, sliceWorldF_vertsH]
      by_cases h1 : canEmitH w true ts ax (ts - 1)
      · rw [if_pos h1]
        have hts : 1 ≤ ts := layerNotEmptyH_pos h1.1
        by_cases h0 : canEmitH w true ts ax 0
        · rw [if_pos h0]
          have hz : (0 : Nat) = ts - 1 := by
            rcases h0.2 with hc | hc
            · cases hc
            · exact hc
          have hts1 : ts = 1 := by omega
          subst hts1
          refine Or.inr (Or.inr ?_)
          simp only [emptyGeom, List.nil_append]
          norm_num
        · rw [if_neg h0]
          refine Or.inr (Or.inl ?_)
          simp only [emptyGeom, List.nil_append]
          rw [high_depth_eq_one hts]
      · rw [if_neg h1]
        by_cases h0 : canEmitH w true ts ax 0
        · rw [if_pos h0]
          have hts : 1 ≤ ts := layerNotEmptyH_pos h0.1
          have hz : (0 : Nat) = ts - 1 := by
            rcases h0.2 with hc | hc
            · cases hc
            · exact hc
          have hts1 : ts = 1 := by omega
          subst hts1
          refine Or.inr (Or.inl ?_)
          simp only [emptyGeom, List.nil_append]
          norm_num
        · rw [if_neg h0]
          exact Or.inl rfl

/-- **C4**: a fully opaque World block emits, per axis, at most the low-side
quad of layer 0 and the high-side quad of layer `tileSize-1` (each possibly
twice when `tileSize = 1`, where the two outer layers coincide): no quad with
a layer index strictly between the outer layers is ever produced, regardless
of the nested container's content. -/
theorem claim_C4_opaque_interior_suppression (w : WorldM) (bid : Nat)
    (st : Texgen UsageTok) (ax : Axis) (g : Geom) :
    (("l" ++ dimName ax, g) ∈ (rebuildWorldF w true bid st).2 →
      g.vertices = [] ∨ g.vertices = quadVertices ax false 0 ∨
        g.vertices = quadVertices ax false 0 ++ quadVertices ax false 0) ∧
    (("h" ++ dimName ax, g) ∈ (rebuildWorldF w true bid st).2 →
      g.vertices = [] ∨ g.vertices = quadVertices ax true 1 ∨
        g.vertices = quadVertices ax true 1 ++ quadVertices ax true 1) := by
  constructor
  · intro hmem
    simp only [rebuildWorldF, List.mem_append] at hmem
    rcases hmem with (hmem | hmem) | hmem <;>
    · obtain ⟨gl, gh, ho, hcase⟩ := mem_axisEntries hmem
      rcases hcase with ⟨hk, rfl⟩ | ⟨hk, rfl⟩
      · obtain rfl := lkey_inj hk
        exact (rebuildAxisW_opaque_verts w bid _ _ _ _ ho).1
      · exact absurd hk (lkey_ne_hkey ax _)
  · intro hmem
    simp only [rebuildWorldF, List.mem_append] at hmem
    rcases hmem with (hmem | hmem) | hmem <;>
    · obtain ⟨gl, gh, ho, hcase⟩ := mem_axisEntries hmem
      rcases hcase with ⟨hk, rfl⟩ | ⟨hk, rfl⟩
      · exact absurd hk (hkey_ne_lkey ax _)
      · obtain rfl := hkey_inj hk
        exact (rebuildAxisW_opaque_verts w bid _ _ _ _ ho).2

/-- A concrete world whose cells are all transparent (`a = 0`). -/
def c4World : WorldM :=
  { rgba := fun _ _ _ => { r := 0, g := 0, b := 0, a := 0 }
    opaq := fun _ _ _ => false }

/-- A small live atlas (`tileSize 2`, surface `8`, `2 × 2` tiles, all free). -/
def c4State : Texgen UsageTok :=
  { tileSize := 2
    textureSize := 8
    tileCountSqrt := 2
    tileAllocMap := List.replicate 4 0
    freePointer := 0
    usageMap := []
    textureLost := false
    image := fun _ => 0 }

theorem claim_C4_opaque_interior_suppression_witness :
    (("l" ++ dimName Axis.z, emptyGeom) ∈ (rebuildWorldF c4World true 1 c4State).2 ∧
      (emptyGeom.vertices = [] ∨
        emptyGeom.vertices = quadVertices Axis.z false 0 ∨
        emptyGeom.vertices =
          quadVertices Axis.z false 0 ++ quadVertices Axis.z false 0)) ∧
    (("h" ++ dimName Axis.z, emptyGeom) ∈ (rebuildWorldF c4World true 1 c4State).2 ∧
      (emptyGeom.vertices = [] ∨
        emptyGeom.vertices = quadVertices Axis.z true 1 ∨
        emptyGeom.vertices =
          quadVertices Axis.z true 1 ++ quadVertices Axis.z true 1)) :=
  ⟨⟨by decide,
    (claim_C4_opaque_interior_suppression c4World 1 c4State Axis.z emptyGeom).1
      (by decide)⟩,
   ⟨by decide,
    (claim_C4_opaque_interior_suppression c4World 1 c4State Axis.z emptyGeom).2
      (by decide)⟩⟩

/-! ## Claim C5: uniformly transparent worlds produce no geometry -/

/-- The slice state right after the pixel-extraction pass of `sliceWorld`:
the tile allocation of `imageCoordsFor` followed by the `pix` write loops
(skipped when the texture was lost during allocation). -/
def slicePixState (w : WorldM) (ax : Axis) (layer : Nat) (texW : Int)
    (ts : Nat) (st : Texgen UsageTok) (tok : UsageTok) : Texgen UsageTok :=
  let r := imageCoordsFor st tok
  let st1 := r.2
  if st1.textureLost then st1
  else
    { st1 with
      image := slicePixels w ax layer texW ((r.1.1 : Int)) ((r.1.2 : Int))
        ts ts st1.image }

theorem layerNotEmptyL_transparent {w : WorldM}
    (htr : ∀ x y z, (w.rgba x y z).a = 0) (ax : Axis) (ts layer : Nat) :
    layerNotEmptyL w ax ts layer = false := by
  simp [layerNotEmptyL, htr]

theorem layerNotEmptyH_transparent {w : WorldM}
    (htr : ∀ x y z, (w.rgba x y z).a = 0) (ax : Axis) (ts layer : Nat) :
    layerNotEmptyH w ax ts layer = false := by
  simp [layerNotEmptyH, htr]

theorem sliceEmpty_transparent {w : WorldM}
    (htr : ∀ x y z, (w.rgba x y z).a = 0) (ax : Axis) (ts layer : Nat) :
    sliceEmpty w ax ts layer :=
  ⟨layerNotEmptyL_transparent htr ax ts layer,
   layerNotEmptyH_transparent htr ax ts layer⟩

theorem sliceWorldF_transparent {w : WorldM}
    (htr : ∀ x y z, (w.rgba x y z).a = 0) (opq : Bool) (bid ts : Nat)
    (texW : Int) (ax : Axis) (layer : Nat) (st : Texgen UsageTok)
    (gL gH : Geom) :
    sliceWorldF w opq bid ts texW ax layer st gL gH =
      (deallocateUsage
        (slicePixState w ax layer texW ts st (UsageTok.sliceTok bid ax layer))
        (UsageTok.sliceTok bid ax layer), gL, gH) := by
  simp only [sliceWorldF]
  rw [if_pos (sliceEmpty_transparent htr ax ts layer)]
  rfl

theorem sliceLayersLoop_transparent {w : WorldM}
    (htr : ∀ x y z, (w.rgba x y z).a = 0) (opq : Bool) (bid ts : Nat)
    (texW : Int) (ax : Axis) (ls : List Nat) :
    ∀ (st : Texgen UsageTok) (gL gH : Geom),
      (sliceLayersLoop w opq bid ts texW ax ls st gL gH).2 = none ∨
      (sliceLayersLoop w opq bid ts texW ax ls st gL gH).2 = some (gL, gH) := by
  induction ls with
  | nil =>
    intro st gL gH
    exact Or.inr rfl
  | cons l rest ih =>
    intro st gL gH
    rw [sliceLayersLoop]
    by_cases hlost : st.textureLost
    · rw [if_pos hlost]
      exact Or.inl rfl
    · rw [if_neg hlost]
      simp only [sliceWorldF_transparent htr]
      exact ih _ gL gH

theorem rebuildAxisW_transparent {w : WorldM}
    (htr : ∀ x y z, (w.rgba x y z).a = 0) (opq : Bool) (bid ts : Nat)
    (texW : Int) (ax : Axis) (st : Texgen UsageTok) :
    (rebuildAxisW w opq bid ts texW ax st).2 = none ∨
    (rebuildAxisW w opq bid ts texW ax st).2 = some (emptyGeom, emptyGeom) := by
  rw [rebuildAxisW]
  by_cases hopq : opq = true
  · rw [if_pos hopq]
    by_cases hlost : st.textureLost
    · rw [if_pos hlost]
      exact Or.inl rfl
    · rw [if_neg hlost]
      simp only [sliceWorldF_transparent htr]
      exact Or.inr trivial
  · rw [if_neg hopq]
    exact sliceLayersLoop_transparent htr opq bid ts texW ax (List.range ts)
      st emptyGeom emptyGeom

/-- **C5**: against a nested container whose every voxel writes alpha `0`,
both per-slice visibility flags are `false` for every axis, size and layer;
every slice takes the release branch (`deallocateUsage` on the slice token,
geometry untouched); and no `faceData` entry produced by the world rebuild
holds any vertex or texcoord. -/
theorem claim_C5_occlusion_culling (w : WorldM)
    (htr : ∀ x y z, (w.rgba x y z).a = 0) :
    (∀ ax ts layer, layerNotEmptyL w ax ts layer = false ∧
      layerNotEmptyH w ax ts layer = false) ∧
    (∀ opq bid ts texW ax layer st gL gH,
      sliceWorldF w opq bid ts texW ax layer st gL gH =
        (deallocateUsage
          (slicePixState w ax layer texW ts st (UsageTok.sliceTok bid ax layer))
          (UsageTok.sliceTok bid ax layer), gL, gH)) ∧
    (∀ opq bid st k g, (k, g) ∈ (rebuildWorldF w opq bid st).2 →
      g.vertices = [] ∧ g.texcoords = []) := by
  refine ⟨fun ax ts layer => ⟨layerNotEmptyL_transparent htr ax ts layer,
      layerNotEmptyH_transparent htr ax ts layer⟩,
    fun opq bid ts texW ax layer st gL gH =>
      sliceWorldF_transparent htr opq bid ts texW ax layer st gL gH, ?_⟩
  intro opq bid st k g hmem
  have hax : ∀ ax (st' : Texgen UsageTok),
      (k, g) ∈ axisEntries ax
        (rebuildAxisW w opq bid st.tileSize ((st.textureSize : Int)) ax st').2 →
      g.vertices = [] ∧ g.texcoords = [] := by
    intro ax st' hm
    obtain ⟨gl, gh, ho, hcase⟩ := mem_axisEntries hm
    rcases rebuildAxisW_transparent htr opq bid st.tileSize
        ((st.textureSize : Int)) ax st' with hnone | hsome
    · rw [ho] at hnone
      cases hnone
    · rw [ho] at hsome
      injection hsome with hp
      have hgl : gl = emptyGeom := congrArg Prod.fst hp
      have hgh : gh = emptyGeom := congrArg Prod.snd hp
      rcases hcase with ⟨-, rfl⟩ | ⟨-, rfl⟩
      · rw [hgl]
        exact ⟨rfl, rfl⟩
      · rw [hgh]
        exact ⟨rfl, rfl⟩
  simp only [rebuildWorldF, List.mem_append] at hmem
  rcases hmem with (hm | hm) | hm
  · exact hax Axis.z st hm
  · exact hax Axis.x _ hm
  · exact hax Axis.y _ hm

/-- A concrete uniformly transparent world. -/
def c5World : WorldM :=
  { rgba := fun _ _ _ => { r := 0, g := 0, b := 0, a := 0 }
    opaq := fun _ _ _ => false }

/-- A small live atlas for the transparent-world run. -/
def c5State : Texgen UsageTok :=
  { tileSize := 2
    textureSize := 8
    tileCountSqrt := 2
    tileAllocMap := List.replicate 4 0
    freePointer := 0
    usageMap := []
    textureLost := false
    image := fun _ => 0 }

theorem claim_C5_occlusion_culling_witness :
    (layerNotEmptyL c5World Axis.z 2 0 = false ∧
      layerNotEmptyH c5World Axis.z 2 0 = false) ∧
    (("lz", emptyGeom) ∈ (rebuildWorldF c5World false 1 c5State).2 ∧
      emptyGeom.vertices = [] ∧ emptyGeom.texcoords = []) :=
  ⟨(claim_C5_occlusion_culling c5World (fun _ _ _ => rfl)).1 Axis.z 2 0,
   by decide,
   (claim_C5_occlusion_culling c5World (fun _ _ _ => rfl)).2.2 false 1 c5State
     "lz" emptyGeom (by decide)⟩

/-! ## Claim C7: idempotence of rebuildOne (corrected)

The plan: a slice whose token already resides at cell `c` (the second run)
contributes geometry that is a pure function of `tileSize`, `textureSize`,
`tileCountSqrt` and `c`, and leaves everything but the pixel buffer (and, for
released slices, the free pointer) unchanged; the first run assigns each
persistent token the cell that the final usage map records.  Both runs'
geometry is the same fold over the first run's final usage map. -/

/-- The texcoord list `calcTexCoords` produces for a token residing at cell
coordinates `(cu, cv)`, as a pure function of `tileSize` and `textureSize`. -/
def tcPure (T W : Nat) (fl : Bool) (cu cv : Nat) : List (ℚ × ℚ) :=
  let off : ℚ := 1 / (W : ℚ)
  let btuv : ℚ := ((T : ℚ) + 2) / (W : ℚ)
  let tus : ℚ := (T : ℚ) / (W : ℚ)
  let texO : ℚ := if fl then tus else 0
  let texD : ℚ := if fl then 0 else tus
  let uo : ℚ := off + btuv * (cv : ℚ)
  let vo : ℚ := off + btuv * (cu : ℚ)
  [(uo + texO, vo + texO), (uo + tus, vo + 0), (uo + 0, vo + tus),
   (uo + texD, vo + texD), (uo + 0, vo + tus), (uo + tus, vo + 0)]

/-- The low-face geometry contribution of one non-empty slice whose token
occupies cell `c`. -/
def sliceGeomL (w : WorldM) (opq : Bool) (ts : Nat) (ax : Axis) (layer : Nat)
    (T W Q c : Nat) (g : Geom) : Geom :=
  if canEmitL w opq ts ax layer then
    { vertices := g.vertices ++ quadVertices ax false ((layer : ℚ) / (ts : ℚ)),
      texcoords := g.texcoords ++ tcPure T W false (c / Q) (c % Q) }
  else g

/-- The high-face geometry contribution of one non-empty slice whose token
occupies cell `c`. -/
def sliceGeomH (w : WorldM) (opq : Bool) (ts : Nat) (ax : Axis) (layer : Nat)
    (T W Q c : Nat) (g : Geom) : Geom :=
  if canEmitH w opq ts ax layer then
    { vertices := g.vertices ++ quadVertices ax true (((layer : ℚ) + 1) / (ts : ℚ)),
      texcoords := g.texcoords ++ tcPure T W true (c / Q) (c % Q) }
  else g

/-- Folding per-slice geometry contributions over a layer list, looking each
slice's cell up in a fixed usage-map view `lk`. -/
def geomFold (f : Nat → Nat → Geom → Geom) (lk : Nat → Option Nat) :
    List Nat → Geom → Geom
  | [], g => g
  | l :: rest, g =>
    match lk l with
    | some c => geomFold f lk rest (f l c g)
    | none => geomFold f lk rest g

/-- A successful scan always stops on a free cell (no cursor bound needed). -/
theorem tileScanLoop_free {map : List Nat} :
    ∀ {fuel fp n i : Nat}, tileScanLoop map fuel fp n = some i →
    map.getD i 0 = 0 := by
  intro fuel
  induction fuel with
  | zero =>
    intro fp n i h
    rw [tileScanLoop] at h
    by_cases hocc : map.getD fp 0 ≠ 0
    · rw [if_pos hocc] at h
      cases h
    · rw [if_neg hocc] at h
      obtain rfl : fp = i := by injection h
      simpa using hocc
  | succ fuel ih =>
    intro fp n i h
    rw [tileScanLoop] at h
    by_cases hocc : map.getD fp 0 ≠ 0
    · rw [if_pos hocc] at h
      by_cases hlen : map.length ≤ n + 1
      · rw [if_pos hlen] at h
        cases h
      · rw [if_neg hlen] at h
        exact ih h
    · rw [if_neg hocc] at h
      obtain rfl : fp = i := by injection h
      simpa using hocc

theorem tileAllocScan_free {map : List Nat} {fp n i : Nat}
    (h : tileAllocScan map fp n = some i) : map.getD i 0 = 0 :=
  tileScanLoop_free h

theorem umErase_cons_self {κ : Type} [DecidableEq κ] (t : κ) (v : Nat)
    (l : List (κ × Nat)) : umErase t ((t, v) :: l) = l := by
  simp [umErase]

theorem imageCoordsFor_found {κ : Type} [DecidableEq κ] {s : Texgen κ} {t : κ}
    {c : Nat} (hl : s.textureLost = false)
    (hum : umLookup t s.usageMap = some c) :
    imageCoordsFor s t =
      ((1 + (s.tileSize + 2) * (c / s.tileCountSqrt),
        1 + (s.tileSize + 2) * (c % s.tileCountSqrt)), s) := by
  simp [imageCoordsFor, allocationFor_found hl hum, tileCoords]

theorem imageCoordsFor_fresh {κ : Type} [DecidableEq κ] {s : Texgen κ} {t : κ}
    {c : Nat} (hl : s.textureLost = false)
    (hum : umLookup t s.usageMap = none)
    (hscan : tileAllocScan s.tileAllocMap s.freePointer 0 = some c) :
    imageCoordsFor s t =
      ((1 + (s.tileSize + 2) * (c / s.tileCountSqrt),
        1 + (s.tileSize + 2) * (c % s.tileCountSqrt)), allocState s t c) := by
  simp [imageCoordsFor, allocationFor_fresh hl hum hscan, tileCoords, allocState]

theorem calcTexCoords_found {s : Texgen UsageTok} {t : UsageTok} {c : Nat}
    (hl : s.textureLost = false) (hum : umLookup t s.usageMap = some c)
    (fl : Bool) :
    calcTexCoords s t fl =
      (tcPure s.tileSize s.textureSize fl (c / s.tileCountSqrt)
        (c % s.tileCountSqrt), s) := by
  simp [calcTexCoords, uvFor, allocationFor_found hl hum, tileCoords, tcPure]

theorem pushQuadF_found {s : Texgen UsageTok} {t : UsageTok} {c : Nat}
    (hl : s.textureLost = false) (hum : umLookup t s.usageMap = some c)
    (fl : Bool) (ax : Axis) (d : ℚ) (g : Geom) :
    pushQuadF s t fl ax d g =
      ({ vertices := g.vertices ++ quadVertices ax fl d,
         texcoords := g.texcoords ++ tcPure s.tileSize s.textureSize fl
           (c / s.tileCountSqrt) (c % s.tileCountSqrt) }, s) := by
  simp [pushQuadF, calcTexCoords_found hl hum]

theorem completedF_found {s : Texgen UsageTok} {t : UsageTok} {c : Nat}
    (hl : s.textureLost = false) (hum : umLookup t s.usageMap = some c) :
    completedF s t = { s with
      image := completedCore s.tileSize (s.textureSize : Int)
        ((1 + (s.tileSize + 2) * (c / s.tileCountSqrt) : Nat) : Int)
        ((1 + (s.tileSize + 2) * (c % s.tileCountSqrt) : Nat) : Int) s.image } := by
  simp [completedF, imageCoordsFor_found hl hum]

/-- The pixel buffer after the slice-extraction loops of one `sliceWorld`
call, for a token residing at cell `c`. -/
def slicePixAt (w : WorldM) (ax : Axis) (layer : Nat) (texW : Int)
    (ts T Q c : Nat) (img : Int → Nat) : Int → Nat :=
  slicePixels w ax layer texW ((1 + (T + 2) * (c / Q) : Nat) : Int)
    ((1 + (T + 2) * (c % Q) : Nat) : Int) ts ts img

/-- The pixel buffer after slice extraction plus the border pass of
`completed`, for a token residing at cell `c`. -/
def sliceImgFull (w : WorldM) (ax : Axis) (layer : Nat) (texW : Int)
    (ts T W Q c : Nat) (img : Int → Nat) : Int → Nat :=
  completedCore T (W : Int) ((1 + (T + 2) * (c / Q) : Nat) : Int)
    ((1 + (T + 2) * (c % Q) : Nat) : Int)
    (slicePixAt w ax layer texW ts T Q c img)

theorem sliceWorldF_nonempty_found {w : WorldM} {opq : Bool} {bid ts : Nat}
    {texW : Int} {ax : Axis} {layer : Nat} {s : Texgen UsageTok} {c : Nat}
    (hE : ¬ sliceEmpty w ax ts layer) (hl : s.textureLost = false)
    (hum : umLookup (UsageTok.sliceTok bid ax layer) s.usageMap = some c)
    (gL gH : Geom) :
    sliceWorldF w opq bid ts texW ax layer s gL gH =
      ({ s with image := (sliceImgFull w ax layer texW ts s.tileSize
          s.textureSize s.tileCountSqrt c s.image) },
       sliceGeomL w opq ts ax layer s.tileSize s.textureSize s.tileCountSqrt c gL,
       sliceGeomH w opq ts ax layer s.tileSize s.textureSize s.tileCountSqrt c gH) := by
  by_cases hcl : canEmitL w opq ts ax layer <;>
    by_cases hch : canEmitH w opq ts ax layer <;>
    simp only [sliceWorldF, imageCoordsFor, allocationFor, completedF,
      pushQuadF, calcTexCoords, uvFor, tileCoords, hl, hum, hE, hcl, hch,
      Bool.false_eq_true, if_false, if_true, ite_true, ite_false,
      not_false_iff, sliceGeomL, sliceGeomH, sliceImgFull, slicePixAt] <;>
    rfl

theorem sliceWorldF_nonempty_fresh {w : WorldM} {opq : Bool} {bid ts : Nat}
    {texW : Int} {ax : Axis} {layer : Nat} {s : Texgen UsageTok} {c : Nat}
    (hE : ¬ sliceEmpty w ax ts layer) (hl : s.textureLost = false)
    (hum : umLookup (UsageTok.sliceTok bid ax layer) s.usageMap = none)
    (hscan : tileAllocScan s.tileAllocMap s.freePointer 0 = some c)
    (gL gH : Geom) :
    sliceWorldF w opq bid ts texW ax layer s gL gH =
      ({ s with
          tileAllocMap := s.tileAllocMap.set c 1
          freePointer := c
          usageMap := (UsageTok.sliceTok bid ax layer, c) :: s.usageMap
          image := (sliceImgFull w ax layer texW ts s.tileSize s.textureSize
            s.tileCountSqrt c s.image) },
       sliceGeomL w opq ts ax layer s.tileSize s.textureSize s.tileCountSqrt c gL,
       sliceGeomH w opq ts ax layer s.tileSize s.textureSize s.tileCountSqrt c gH) := by
  by_cases hcl : canEmitL w opq ts ax layer <;>
    by_cases hch : canEmitH w opq ts ax layer <;>
    simp only [sliceWorldF, imageCoordsFor, allocationFor, completedF,
      pushQuadF, calcTexCoords, uvFor, tileCoords, hl, hum, hscan, hE, hcl,
      hch, umLookup_cons_self, Bool.false_eq_true, if_false, if_true,
      ite_true, ite_false, not_false_iff, sliceGeomL, sliceGeomH,
      sliceImgFull, slicePixAt] <;>
    rfl

theorem sliceWorldF_empty_found {w : WorldM} {opq : Bool} {bid ts : Nat}
    {texW : Int} {ax : Axis} {layer : Nat} {s : Texgen UsageTok} {c : Nat}
    (hE : sliceEmpty w ax ts layer) (hl : s.textureLost = false)
    (hum : umLookup (UsageTok.sliceTok bid ax layer) s.usageMap = some c)
    (gL gH : Geom) :
    sliceWorldF w opq bid ts texW ax layer s gL gH =
      ({ s with
          tileAllocMap := s.tileAllocMap.set c 0
          usageMap := umErase (UsageTok.sliceTok bid ax layer) s.usageMap
          image := (slicePixAt w ax layer texW ts s.tileSize s.tileCountSqrt c
            s.image) }, gL, gH) := by
  simp only [sliceWorldF, imageCoordsFor, allocationFor, deallocateUsage,
    tileCoords, hl, hum, hE, Bool.false_eq_true, if_false, if_true, ite_true,
    ite_false, slicePixAt]

theorem sliceWorldF_empty_fresh {w : WorldM} {opq : Bool} {bid ts : Nat}
    {texW : Int} {ax : Axis} {layer : Nat} {s : Texgen UsageTok} {c : Nat}
    (hE : sliceEmpty w ax ts layer) (hl : s.textureLost = false)
    (hum : umLookup (UsageTok.sliceTok bid ax layer) s.usageMap = none)
    (hscan : tileAllocScan s.tileAllocMap s.freePointer 0 = some c)
    (gL gH : Geom) :
    sliceWorldF w opq bid ts texW ax layer s gL gH =
      ({ s with
          freePointer := c
          image := (slicePixAt w ax layer texW ts s.tileSize s.tileCountSqrt c
            s.image) }, gL, gH) := by
  simp only [sliceWorldF, imageCoordsFor, allocationFor, deallocateUsage,
    tileCoords, hl, hum, hscan, hE, umLookup_cons_self, umErase_cons_self,
    Bool.false_eq_true, if_false, if_true, ite_true, ite_false, List.set_set,
    slicePixAt]
  rw [set_getD_zero_eq_self (tileAllocScan_free hscan)]

theorem sliceWorldF_lost {w : WorldM} {opq : Bool} {bid ts : Nat}
    {texW : Int} {ax : Axis} {layer : Nat} {s : Texgen UsageTok}
    (hl : s.textureLost = true) (gL gH : Geom) :
    (sliceWorldF w opq bid ts texW ax layer s gL gH).1.textureLost = true := by
  by_cases hE : sliceEmpty w ax ts layer <;>
    by_cases hcl : canEmitL w opq ts ax layer <;>
    by_cases hch : canEmitH w opq ts ax layer <;>
    simp [sliceWorldF, imageCoordsFor, allocationFor, deallocateUsage,
      completedF, pushQuadF, calcTexCoords, uvFor, hl, hE, hcl, hch]

theorem sliceWorldF_grow {w : WorldM} {opq : Bool} {bid ts : Nat}
    {texW : Int} {ax : Axis} {layer : Nat} {s : Texgen UsageTok}
    (hl : s.textureLost = false)
    (hum : umLookup (UsageTok.sliceTok bid ax layer) s.usageMap = none)
    (hscan : tileAllocScan s.tileAllocMap s.freePointer 0 = none)
    (gL gH : Geom) :
    (sliceWorldF w opq bid ts texW ax layer s gL gH).1.textureLost = true := by
  by_cases hE : sliceEmpty w ax ts layer <;>
    by_cases hcl : canEmitL w opq ts ax layer <;>
    by_cases hch : canEmitH w opq ts ax layer <;>
    simp [sliceWorldF, imageCoordsFor, allocationFor, deallocateUsage,
      completedF, pushQuadF, calcTexCoords, uvFor, enlargeTexture, hl, hum,
      hscan, hE, hcl, hch]

theorem sliceLayersLoop_lost (w : WorldM) (opq : Bool) (bid ts : Nat)
    (texW : Int) (ax : Axis) (ls : List Nat) (st : Texgen UsageTok)
    (gL gH : Geom) (hl : st.textureLost = true) :
    (sliceLayersLoop w opq bid ts texW ax ls st gL gH).1 = st := by
  cases ls with
  | nil => rfl
  | cons l rest => rw [sliceLayersLoop, if_pos hl]

/-- Characterization of one axis pass of the first run: the loop completes,
constants and key uniqueness are preserved, tokens not (or only compatibly)
touched keep their bindings, each slice's token ends present (non-empty
slice) or absent (empty slice), and the produced geometry is the fold of
per-slice contributions read off the axis-final usage map. -/
theorem run1_axis {w : WorldM} {opq : Bool} {bid ts : Nat} {texW : Int}
    {ax : Axis} :
    ∀ (ls : List Nat) (s : Texgen UsageTok) (gL gH : Geom)
      (sF : Texgen UsageTok) (o : Option (Geom × Geom)),
    sliceLayersLoop w opq bid ts texW ax ls s gL gH = (sF, o) →
    s.textureLost = false →
    (s.usageMap.map Prod.fst).Nodup →
    sF.textureLost = false →
    sF.tileSize = s.tileSize ∧ sF.textureSize = s.textureSize ∧
    sF.tileCountSqrt = s.tileCountSqrt ∧ (sF.usageMap.map Prod.fst).Nodup ∧
    (∀ t c, umLookup t s.usageMap = some c →
      (∀ l ∈ ls, t = UsageTok.sliceTok bid ax l → ¬ sliceEmpty w ax ts l) →
      umLookup t sF.usageMap = some c) ∧
    (∀ t, umLookup t s.usageMap = none →
      (∀ l ∈ ls, t = UsageTok.sliceTok bid ax l → sliceEmpty w ax ts l) →
      umLookup t sF.usageMap = none) ∧
    (∀ l ∈ ls,
      (sliceEmpty w ax ts l →
        umLookup (UsageTok.sliceTok bid ax l) sF.usageMap = none) ∧
      (¬ sliceEmpty w ax ts l →
        ∃ c, umLookup (UsageTok.sliceTok bid ax l) sF.usageMap = some c)) ∧
    o = some
      (geomFold (fun l c g => sliceGeomL w opq ts ax l s.tileSize
          s.textureSize s.tileCountSqrt c g)
        (fun l => umLookup (UsageTok.sliceTok bid ax l) sF.usageMap) ls gL,
       geomFold (fun l c g => sliceGeomH w opq ts ax l s.tileSize
          s.textureSize s.tileCountSqrt c g)
        (fun l => umLookup (UsageTok.sliceTok bid ax l) sF.usageMap) ls gH) := by
  intro ls
  induction ls with
  | nil =>
    intro s gL gH sF o h hl0 hnd hF
    rw [sliceLayersLoop] at h
    obtain ⟨rfl, rfl⟩ : s = sF ∧ some (gL, gH) = o :=
      ⟨congrArg Prod.fst h, congrArg Prod.snd h⟩
    exact ⟨rfl, rfl, rfl, hnd,
      fun t c htc _ => htc, fun t htn _ => htn,
      fun l hl => absurd hl (List.not_mem_nil l),
      rfl⟩
  | cons l rest ih =>
    intro s gL gH sF o h hl0 hnd hF
    rw [sliceLayersLoop] at h
    rw [if_neg (by rw [hl0]; exact Bool.false_ne_true)] at h
    have hr1 : (sliceWorldF w opq bid ts texW ax l s gL gH).1.textureLost
        = false := by
      cases hb : (sliceWorldF w opq bid ts texW ax l s gL gH).1.textureLost with
      | false => rfl
      | true =>
        exfalso
        have h1 : (sliceLayersLoop w opq bid ts texW ax rest
            (sliceWorldF w opq bid ts texW ax l s gL gH).1
            (sliceWorldF w opq bid ts texW ax l s gL gH).2.1
            (sliceWorldF w opq bid ts texW ax l s gL gH).2.2).1 = sF := by
          rw [h]
        rw [sliceLayersLoop_lost w opq bid ts texW ax rest _ _ _ hb] at h1
        rw [← h1, hb] at hF
        exact Bool.noConfusion hF
    by_cases hE : sliceEmpty w ax ts l
    · rcases hum : umLookup (UsageTok.sliceTok bid ax l) s.usageMap
        with _ | c
      · rcases hscan : tileAllocScan s.tileAllocMap s.freePointer 0 with _ | c
        · exact Bool.noConfusion
            (hr1.symm.trans (sliceWorldF_grow hl0 hum hscan gL gH))
        · -- empty slice, fresh transient allocation: state restored but fp
          simp only [sliceWorldF_empty_fresh hE hl0 hum hscan gL gH] at h
          obtain ⟨iT, iW, iQ, iND, iS, iN, iP, iG⟩ :=
            ih _ gL gH sF o h hl0 hnd hF
          have hlkl : umLookup (UsageTok.sliceTok bid ax l) sF.usageMap
              = none := by
            refine iN _ hum ?_
            intro l' hl' he
            rw [← (UsageTok.sliceTok.inj he).2.2]
            exact hE
          refine ⟨iT, iW, iQ, iND, ?_, ?_, ?_, ?_⟩
          · intro t c0 htc hcond
            exact iS t c0 htc
              (fun l' h' => hcond l' (List.mem_cons_of_mem _ h'))
          · intro t htn hcond
            exact iN t htn
              (fun l' h' => hcond l' (List.mem_cons_of_mem _ h'))
          · intro l' hl'
            rcases List.mem_cons.mp hl' with rfl | hmem
            · exact ⟨fun _ => hlkl, fun hne => absurd hE hne⟩
            · exact iP l' hmem
          · rw [iG]
            simp only [geomFold, hlkl]
      · -- empty slice, stale binding released
        simp only [sliceWorldF_empty_found hE hl0 hum gL gH] at h
        have hnd' : ((umErase (UsageTok.sliceTok bid ax l)
            s.usageMap).map Prod.fst).Nodup :=
          List.Nodup.sublist
            ((umErase_sublist (UsageTok.sliceTok bid ax l) s.usageMap).map
              Prod.fst) hnd
        obtain ⟨iT, iW, iQ, iND, iS, iN, iP, iG⟩ :=
          ih _ gL gH sF o h hl0 hnd' hF
        have hlkl : umLookup (UsageTok.sliceTok bid ax l) sF.usageMap
            = none := by
          refine iN _ (umLookup_umErase_self hnd) ?_
          intro l' hl' he
          rw [← (UsageTok.sliceTok.inj he).2.2]
          exact hE
        refine ⟨iT, iW, iQ, iND, ?_, ?_, ?_, ?_⟩
        · intro t c0 htc hcond
          have hne : t ≠ UsageTok.sliceTok bid ax l :=
            fun he => hcond l (List.mem_cons_self l rest) he hE
          refine iS t c0 ?_
            (fun l' h' => hcond l' (List.mem_cons_of_mem _ h'))
          rw [umLookup_umErase_ne hne]
          exact htc
        · intro t htn hcond
          by_cases hne : t = UsageTok.sliceTok bid ax l
          · subst hne
            refine iN _ (umLookup_umErase_self hnd) ?_
            exact fun l' h' => hcond l' (List.mem_cons_of_mem _ h')
          · refine iN t ?_ (fun l' h' => hcond l' (List.mem_cons_of_mem _ h'))
            rw [umLookup_umErase_ne hne]
            exact htn
        · intro l' hl'
          rcases List.mem_cons.mp hl' with rfl | hmem
          · exact ⟨fun _ => hlkl, fun hne => absurd hE hne⟩
          · exact iP l' hmem
        · rw [iG]
          simp only [geomFold, hlkl]
    · rcases hum : umLookup (UsageTok.sliceTok bid ax l) s.usageMap
        with _ | c
      · rcases hscan : tileAllocScan s.tileAllocMap s.freePointer 0 with _ | c
        · exact Bool.noConfusion
            (hr1.symm.trans (sliceWorldF_grow hl0 hum hscan gL gH))
        · -- non-empty slice, fresh allocation at the scanned cell
          simp only [sliceWorldF_nonempty_fresh hE hl0 hum hscan gL gH] at h
          have hmemk : UsageTok.sliceTok bid ax l ∉
              s.usageMap.map Prod.fst := by
            intro hmem
            obtain ⟨v, hv⟩ := exists_umLookup_of_mem_keys hmem
            rw [hv] at hum
            exact Option.noConfusion hum
          have hnd' : (((UsageTok.sliceTok bid ax l, c) ::
              s.usageMap).map Prod.fst).Nodup := by
            simp only [List.map_cons, List.nodup_cons]
            exact ⟨hmemk, hnd⟩
          obtain ⟨iT, iW, iQ, iND, iS, iN, iP, iG⟩ :=
            ih _ _ _ sF o h hl0 hnd' hF
          have hlkl : umLookup (UsageTok.sliceTok bid ax l) sF.usageMap
              = some c := by
            refine iS _ c (umLookup_cons_self _ _ _) ?_
            intro l' hl' he
            rw [← (UsageTok.sliceTok.inj he).2.2]
            exact hE
          refine ⟨iT, iW, iQ, iND, ?_, ?_, ?_, ?_⟩
          · intro t c0 htc hcond
            have hne : t ≠ UsageTok.sliceTok bid ax l := by
              intro he
              rw [he, hum] at htc
              exact Option.noConfusion htc
            refine iS t c0 ?_
              (fun l' h' => hcond l' (List.mem_cons_of_mem _ h'))
            rw [umLookup_cons_ne (Ne.symm hne)]
            exact htc
          · intro t htn hcond
            have hne : t ≠ UsageTok.sliceTok bid ax l :=
              fun he => hE (hcond l (List.mem_cons_self l rest) he)
            refine iN t ?_ (fun l' h' => hcond l' (List.mem_cons_of_mem _ h'))
            rw [umLookup_cons_ne (Ne.symm hne)]
            exact htn
          · intro l' hl'
            rcases List.mem_cons.mp hl' with rfl | hmem
            · exact ⟨fun he => absurd he hE, fun _ => ⟨c, hlkl⟩⟩
            · exact iP l' hmem
          · rw [iG]
            simp only [geomFold, hlkl]
      · -- non-empty slice, token found at its existing cell
        simp only [sliceWorldF_nonempty_found hE hl0 hum gL gH] at h
        obtain ⟨iT, iW, iQ, iND, iS, iN, iP, iG⟩ :=
          ih _ _ _ sF o h hl0 hnd hF
        have hlkl : umLookup (UsageTok.sliceTok bid ax l) sF.usageMap
            = some c := by
          refine iS _ c hum ?_
          intro l' hl' he
          rw [← (UsageTok.sliceTok.inj he).2.2]
          exact hE
        refine ⟨iT, iW, iQ, iND, ?_, ?_, ?_, ?_⟩
        · intro t c0 htc hcond
          exact iS t c0 htc
            (fun l' h' => hcond l' (List.mem_cons_of_mem _ h'))
        · intro t htn hcond
          exact iN t htn
            (fun l' h' => hcond l' (List.mem_cons_of_mem _ h'))
        · intro l' hl'
          rcases List.mem_cons.mp hl' with rfl | hmem
          · exact ⟨fun he => absurd he hE, fun _ => ⟨c, hlkl⟩⟩
          · exact iP l' hmem
        · rw [iG]
          simp only [geomFold, hlkl]

/-- Characterization of one axis pass of the second run: with every slice
token already present (non-empty slices) or absent (empty slices), the loop
leaves the usage map and the occupancy bitmap exactly as it found them and
reproduces the same geometry fold, now read off the unchanged usage map. -/
theorem run2_axis {w : WorldM} {opq : Bool} {bid ts : Nat} {texW : Int}
    {ax : Axis} :
    ∀ (ls : List Nat) (s : Texgen UsageTok) (gL gH : Geom)
      (sF : Texgen UsageTok) (o : Option (Geom × Geom)),
    sliceLayersLoop w opq bid ts texW ax ls s gL gH = (sF, o) →
    s.textureLost = false →
    sF.textureLost = false →
    (∀ l ∈ ls,
      (sliceEmpty w ax ts l →
        umLookup (UsageTok.sliceTok bid ax l) s.usageMap = none) ∧
      (¬ sliceEmpty w ax ts l →
        ∃ c, umLookup (UsageTok.sliceTok bid ax l) s.usageMap = some c)) →
    sF.usageMap = s.usageMap ∧ sF.tileAllocMap = s.tileAllocMap ∧
    sF.tileSize = s.tileSize ∧ sF.textureSize = s.textureSize ∧
    sF.tileCountSqrt = s.tileCountSqrt ∧
    o = some
      (geomFold (fun l c g => sliceGeomL w opq ts ax l s.tileSize
          s.textureSize s.tileCountSqrt c g)
        (fun l => umLookup (UsageTok.sliceTok bid ax l) s.usageMap) ls gL,
       geomFold (fun l c g => sliceGeomH w opq ts ax l s.tileSize
          s.textureSize s.tileCountSqrt c g)
        (fun l => umLookup (UsageTok.sliceTok bid ax l) s.usageMap) ls gH) := by
  intro ls
  induction ls with
  | nil =>
    intro s gL gH sF o h hl0 hF hpa
    rw [sliceLayersLoop] at h
    obtain ⟨rfl, rfl⟩ : s = sF ∧ some (gL, gH) = o :=
      ⟨congrArg Prod.fst h, congrArg Prod.snd h⟩
    exact ⟨rfl, rfl, rfl, rfl, rfl, rfl⟩
  | cons l rest ih =>
    intro s gL gH sF o h hl0 hF hpa
    rw [sliceLayersLoop] at h
    rw [if_neg (by rw [hl0]; exact Bool.false_ne_true)] at h
    have hr1 : (sliceWorldF w opq bid ts texW ax l s gL gH).1.textureLost
        = false := by
      cases hb : (sliceWorldF w opq bid ts texW ax l s gL gH).1.textureLost with
      | false => rfl
      | true =>
        exfalso
        have h1 : (sliceLayersLoop w opq bid ts texW ax rest
            (sliceWorldF w opq bid ts texW ax l s gL gH).1
            (sliceWorldF w opq bid ts texW ax l s gL gH).2.1
            (sliceWorldF w opq bid ts texW ax l s gL gH).2.2).1 = sF := by
          rw [h]
        rw [sliceLayersLoop_lost w opq bid ts texW ax rest _ _ _ hb] at h1
        rw [← h1, hb] at hF
        exact Bool.noConfusion hF
    by_cases hE : sliceEmpty w ax ts l
    · have hlkl : umLookup (UsageTok.sliceTok bid ax l) s.usageMap = none :=
        (hpa l (List.mem_cons_self l rest)).1 hE
      rcases hscan : tileAllocScan s.tileAllocMap s.freePointer 0 with _ | c
      · exact Bool.noConfusion
          (hr1.symm.trans (sliceWorldF_grow hl0 hlkl hscan gL gH))
      · simp only [sliceWorldF_empty_fresh hE hl0 hlkl hscan gL gH] at h
        obtain ⟨iU, iM, iT, iW, iQ, iG⟩ := ih _ gL gH sF o h hl0 hF
          (fun l' h' => hpa l' (List.mem_cons_of_mem _ h'))
        refine ⟨iU, iM, iT, iW, iQ, ?_⟩
        rw [iG]
        simp only [geomFold, hlkl]
    · obtain ⟨c, hlkl⟩ := (hpa l (List.mem_cons_self l rest)).2 hE
      simp only [sliceWorldF_nonempty_found hE hl0 hlkl gL gH] at h
      obtain ⟨iU, iM, iT, iW, iQ, iG⟩ := ih _ _ _ sF o h hl0 hF
        (fun l' h' => hpa l' (List.mem_cons_of_mem _ h'))
      refine ⟨iU, iM, iT, iW, iQ, ?_⟩
      rw [iG]
      simp only [geomFold, hlkl]

theorem sliceTok_axis_ne {b b' l l' : Nat} {a a' : Axis} (hne : a ≠ a') :
    UsageTok.sliceTok b a l ≠ UsageTok.sliceTok b' a' l' := by
  intro he
  exact hne (UsageTok.sliceTok.inj he).2.1

/-- The layers one `TILE_MAPPINGS` iteration slices, in order: the opaque
branch does layers `0` and `tileSize-1`, the transparent branch all layers. -/
def axisLayers (opq : Bool) (ts : Nat) : List Nat :=
  if opq then [0, ts - 1] else List.range ts

theorem rebuildAxisW_lost {w : WorldM} {opq : Bool} {bid ts : Nat}
    {texW : Int} {ax : Axis} (st : Texgen UsageTok)
    (hl : st.textureLost = true) :
    (rebuildAxisW w opq bid ts texW ax st).1 = st := by
  cases opq with
  | true =>
    rw [rebuildAxisW, if_pos rfl, if_pos hl]
  | false =>
    rw [rebuildAxisW, if_neg Bool.false_ne_true]
    exact sliceLayersLoop_lost w false bid ts texW ax _ st emptyGeom
      emptyGeom hl

/-- When the axis pass completes without losing the texture, the opaque
branch's two unchecked slice calls coincide with the checked loop over
`axisLayers`. -/
theorem rebuildAxisW_eq_loop {w : WorldM} {opq : Bool} {bid ts : Nat}
    {texW : Int} {ax : Axis} (st : Texgen UsageTok)
    (hfin : (rebuildAxisW w opq bid ts texW ax st).1.textureLost = false) :
    rebuildAxisW w opq bid ts texW ax st =
      sliceLayersLoop w opq bid ts texW ax (axisLayers opq ts) st
        emptyGeom emptyGeom := by
  cases opq with
  | false => rfl
  | true =>
    cases hlost : st.textureLost with
    | true =>
      rw [rebuildAxisW, if_pos rfl, if_pos hlost, axisLayers, if_pos rfl,
        sliceLayersLoop, if_pos hlost]
    | false =>
      have hnl : ¬ st.textureLost = true := by
        rw [hlost]
        exact Bool.false_ne_true
      rw [rebuildAxisW, if_pos rfl, if_neg hnl] at hfin ⊢
      have hr1 : (sliceWorldF w true bid ts texW ax 0 st emptyGeom
          emptyGeom).1.textureLost = false := by
        cases hb : (sliceWorldF w true bid ts texW ax 0 st emptyGeom
            emptyGeom).1.textureLost with
        | false => rfl
        | true =>
          exact Bool.noConfusion ((sliceWorldF_lost hb _ _).symm.trans hfin)
      have hnr : ¬ (sliceWorldF w true bid ts texW ax 0 st emptyGeom
          emptyGeom).1.textureLost = true := by
        rw [hr1]
        exact Bool.false_ne_true
      rw [axisLayers, if_pos rfl, sliceLayersLoop, if_neg hnl,
        sliceLayersLoop, if_neg hnr, sliceLayersLoop]

theorem geomFold_congr {f : Nat → Nat → Geom → Geom}
    {lk lk' : Nat → Option Nat} :
    ∀ (ls : List Nat) (g : Geom), (∀ l ∈ ls, lk l = lk' l) →
    geomFold f lk ls g = geomFold f lk' ls g := by
  intro ls
  induction ls with
  | nil =>
    intro g _
    rfl
  | cons l rest ih =>
    intro g hco
    rw [geomFold, geomFold, hco l (List.mem_cons_self l rest)]
    cases hv : lk' l with
    | none => exact ih _ (fun l' h' => hco l' (List.mem_cons_of_mem _ h'))
    | some c => exact ih _ (fun l' h' => hco l' (List.mem_cons_of_mem _ h'))

/-- Running the world branch twice (with key-unique initial usage map and no
texture loss anywhere) reproduces the same face data and leaves the usage map
and the occupancy bitmap exactly as the first run left them. -/
theorem rebuildWorldF_idem (w : WorldM) (opq : Bool) (bid : Nat)
    (st0 : Texgen UsageTok) (hnd : UMNodup st0)
    (h2 : (rebuildWorldF w opq bid
      (rebuildWorldF w opq bid st0).1).1.textureLost = false) :
    (rebuildWorldF w opq bid (rebuildWorldF w opq bid st0).1).2 =
      (rebuildWorldF w opq bid st0).2 ∧
    (rebuildWorldF w opq bid (rebuildWorldF w opq bid st0).1).1.usageMap =
      (rebuildWorldF w opq bid st0).1.usageMap ∧
    (rebuildWorldF w opq bid (rebuildWorldF w opq bid st0).1).1.tileAllocMap =
      (rebuildWorldF w opq bid st0).1.tileAllocMap := by
  rcases hz : rebuildAxisW w opq bid st0.tileSize ((st0.textureSize : Int))
    Axis.z st0 with ⟨sz, oz⟩
  rcases hx : rebuildAxisW w opq bid st0.tileSize ((st0.textureSize : Int))
    Axis.x sz with ⟨sx, ox⟩
  rcases hy : rebuildAxisW w opq bid st0.tileSize ((st0.textureSize : Int))
    Axis.y sx with ⟨sy, oy⟩
  have run1eq : rebuildWorldF w opq bid st0 =
      (sy, axisEntries Axis.z oz ++ axisEntries Axis.x ox ++
        axisEntries Axis.y oy) := by
    simp only [rebuildWorldF, hz, hx, hy]
  rw [run1eq] at h2 ⊢
  -- the second run, with its tile size and texture width normalized to the
  -- first run's input values once the component equations are available
  have hsy : sy.textureLost = false := by
    cases hb : sy.textureLost with
    | false => rfl
    | true =>
      have hk : (rebuildWorldF w opq bid sy).1 = sy := by
        simp only [rebuildWorldF]
        rw [rebuildAxisW_lost sy hb, rebuildAxisW_lost sy hb,
          rebuildAxisW_lost sy hb]
      have h2' := h2
      rw [hk, hb] at h2'
      exact Bool.noConfusion h2'
  have hsx : sx.textureLost = false := by
    cases hb : sx.textureLost with
    | false => rfl
    | true =>
      have h1 : (rebuildAxisW w opq bid st0.tileSize
          ((st0.textureSize : Int)) Axis.y sx).1 = sy := by
        rw [hy]
      rw [rebuildAxisW_lost sx hb] at h1
      have hsy' := hsy
      rw [← h1, hb] at hsy'
      exact Bool.noConfusion hsy'
  have hsz : sz.textureLost = false := by
    cases hb : sz.textureLost with
    | false => rfl
    | true =>
      have h1 : (rebuildAxisW w opq bid st0.tileSize
          ((st0.textureSize : Int)) Axis.x sz).1 = sx := by
        rw [hx]
      rw [rebuildAxisW_lost sz hb] at h1
      have hsx' := hsx
      rw [← h1, hb] at hsx'
      exact Bool.noConfusion hsx'
  have hs0 : st0.textureLost = false := by
    cases hb : st0.textureLost with
    | false => rfl
    | true =>
      have h1 : (rebuildAxisW w opq bid st0.tileSize
          ((st0.textureSize : Int)) Axis.z st0).1 = sz := by
        rw [hz]
      rw [rebuildAxisW_lost st0 hb] at h1
      have hsz' := hsz
      rw [← h1, hb] at hsz'
      exact Bool.noConfusion hsz'
  -- first-run axis characterizations
  have hloopz : sliceLayersLoop w opq bid st0.tileSize
      ((st0.textureSize : Int)) Axis.z (axisLayers opq st0.tileSize) st0
      emptyGeom emptyGeom = (sz, oz) := by
    rw [← rebuildAxisW_eq_loop st0 (by rw [hz]; exact hsz)]
    exact hz
  obtain ⟨zT, zW, zQ, zND, zS, zN, zP, zG⟩ :=
    run1_axis _ st0 _ _ sz oz hloopz hs0 hnd hsz
  have hloopx : sliceLayersLoop w opq bid st0.tileSize
      ((st0.textureSize : Int)) Axis.x (axisLayers opq st0.tileSize) sz
      emptyGeom emptyGeom = (sx, ox) := by
    rw [← rebuildAxisW_eq_loop sz (by rw [hx]; exact hsx)]
    exact hx
  obtain ⟨xT, xW, xQ, xND, xS, xN, xP, xG⟩ :=
    run1_axis _ sz _ _ sx ox hloopx hsz zND hsx
  have hloopy : sliceLayersLoop w opq bid st0.tileSize
      ((st0.textureSize : Int)) Axis.y (axisLayers opq st0.tileSize) sx
      emptyGeom emptyGeom = (sy, oy) := by
    rw [← rebuildAxisW_eq_loop sx (by rw [hy]; exact hsy)]
    exact hy
  obtain ⟨yT, yW, yQ, yND, yS, yN, yP, yG⟩ :=
    run1_axis _ sx _ _ sy oy hloopy hsx xND hsy
  have syT : sy.tileSize = st0.tileSize := yT.trans (xT.trans zT)
  have syW : sy.textureSize = st0.textureSize := yW.trans (xW.trans zW)
  have syQ : sy.tileCountSqrt = st0.tileCountSqrt := yQ.trans (xQ.trans zQ)
  -- token presence/absence of each axis, read in the first run's final map
  have hPz : ∀ l ∈ axisLayers opq st0.tileSize,
      (sliceEmpty w Axis.z st0.tileSize l →
        umLookup (UsageTok.sliceTok bid Axis.z l) sy.usageMap = none) ∧
      (¬ sliceEmpty w Axis.z st0.tileSize l →
        ∃ c, umLookup (UsageTok.sliceTok bid Axis.z l) sy.usageMap
          = some c) := by
    intro l hl
    constructor
    · intro hE
      have h1 := (zP l hl).1 hE
      have hmid := xN _ h1
        (fun l' _ he => absurd he (sliceTok_axis_ne (by decide)))
      exact yN _ hmid
        (fun l' _ he => absurd he (sliceTok_axis_ne (by decide)))
    · intro hE
      obtain ⟨c, hc⟩ := (zP l hl).2 hE
      have hmid := xS _ c hc
        (fun l' _ he => absurd he (sliceTok_axis_ne (by decide)))
      exact ⟨c, yS _ c hmid
        (fun l' _ he => absurd he (sliceTok_axis_ne (by decide)))⟩
  have hPx : ∀ l ∈ axisLayers opq st0.tileSize,
      (sliceEmpty w Axis.x st0.tileSize l →
        umLookup (UsageTok.sliceTok bid Axis.x l) sy.usageMap = none) ∧
      (¬ sliceEmpty w Axis.x st0.tileSize l →
        ∃ c, umLookup (UsageTok.sliceTok bid Axis.x l) sy.usageMap
          = some c) := by
    intro l hl
    constructor
    · intro hE
      exact yN _ ((xP l hl).1 hE)
        (fun l' _ he => absurd he (sliceTok_axis_ne (by decide)))
    · intro hE
      obtain ⟨c, hc⟩ := (xP l hl).2 hE
      exact ⟨c, yS _ c hc
        (fun l' _ he => absurd he (sliceTok_axis_ne (by decide)))⟩
  -- lookups of earlier axes are stable through the later axes
  have hLKz : ∀ l ∈ axisLayers opq st0.tileSize,
      umLookup (UsageTok.sliceTok bid Axis.z l) sz.usageMap =
      umLookup (UsageTok.sliceTok bid Axis.z l) sy.usageMap := by
    intro l hl
    cases hv : umLookup (UsageTok.sliceTok bid Axis.z l) sz.usageMap with
    | none =>
      have hmid := xN _ hv
        (fun l' _ he => absurd he (sliceTok_axis_ne (by decide)))
      exact (yN _ hmid
        (fun l' _ he => absurd he (sliceTok_axis_ne (by decide)))).symm
    | some c =>
      have hmid := xS _ c hv
        (fun l' _ he => absurd he (sliceTok_axis_ne (by decide)))
      exact (yS _ c hmid
        (fun l' _ he => absurd he (sliceTok_axis_ne (by decide)))).symm
  have hLKx : ∀ l ∈ axisLayers opq st0.tileSize,
      umLookup (UsageTok.sliceTok bid Axis.x l) sx.usageMap =
      umLookup (UsageTok.sliceTok bid Axis.x l) sy.usageMap := by
    intro l hl
    cases hv : umLookup (UsageTok.sliceTok bid Axis.x l) sx.usageMap with
    | none =>
      exact (yN _ hv
        (fun l' _ he => absurd he (sliceTok_axis_ne (by decide)))).symm
    | some c =>
      exact (yS _ c hv
        (fun l' _ he => absurd he (sliceTok_axis_ne (by decide)))).symm
  -- normalize the first-run geometry to st0 parameters and the final map
  simp only [zT, zW, zQ] at xG
  simp only [xT.trans zT, xW.trans zW, xQ.trans zQ] at yG
  have zG' : oz = some
      (geomFold (fun l c g => sliceGeomL w opq st0.tileSize Axis.z l
          st0.tileSize st0.textureSize st0.tileCountSqrt c g)
        (fun l => umLookup (UsageTok.sliceTok bid Axis.z l) sy.usageMap)
        (axisLayers opq st0.tileSize) emptyGeom,
       geomFold (fun l c g => sliceGeomH w opq st0.tileSize Axis.z l
          st0.tileSize st0.textureSize st0.tileCountSqrt c g)
        (fun l => umLookup (UsageTok.sliceTok bid Axis.z l) sy.usageMap)
        (axisLayers opq st0.tileSize) emptyGeom) := by
    rw [zG, geomFold_congr _ _ (fun l hl => hLKz l hl),
      geomFold_congr _ _ (fun l hl => hLKz l hl)]
  have xG' : ox = some
      (geomFold (fun l c g => sliceGeomL w opq st0.tileSize Axis.x l
          st0.tileSize st0.textureSize st0.tileCountSqrt c g)
        (fun l => umLookup (UsageTok.sliceTok bid Axis.x l) sy.usageMap)
        (axisLayers opq st0.tileSize) emptyGeom,
       geomFold (fun l c g => sliceGeomH w opq st0.tileSize Axis.x l
          st0.tileSize st0.textureSize st0.tileCountSqrt c g)
        (fun l => umLookup (UsageTok.sliceTok bid Axis.x l) sy.usageMap)
        (axisLayers opq st0.tileSize) emptyGeom) := by
    rw [xG, geomFold_congr _ _ (fun l hl => hLKx l hl),
      geomFold_congr _ _ (fun l hl => hLKx l hl)]
  -- the second run
  rcases hz2 : rebuildAxisW w opq bid st0.tileSize ((st0.textureSize : Int))
    Axis.z sy with ⟨sz2, oz2⟩
  rcases hx2 : rebuildAxisW w opq bid st0.tileSize ((st0.textureSize : Int))
    Axis.x sz2 with ⟨sx2, ox2⟩
  rcases hy2 : rebuildAxisW w opq bid st0.tileSize ((st0.textureSize : Int))
    Axis.y sx2 with ⟨sy2, oy2⟩
  have run2eq : rebuildWorldF w opq bid sy =
      (sy2, axisEntries Axis.z oz2 ++ axisEntries Axis.x ox2 ++
        axisEntries Axis.y oy2) := by
    simp only [rebuildWorldF, syT, syW, hz2, hx2, hy2]
  rw [run2eq] at h2 ⊢
  have hsx2 : sx2.textureLost = false := by
    cases hb : sx2.textureLost with
    | false => rfl
    | true =>
      have h1 : (rebuildAxisW w opq bid st0.tileSize
          ((st0.textureSize : Int)) Axis.y sx2).1 = sy2 := by
        rw [hy2]
      rw [rebuildAxisW_lost sx2 hb] at h1
      have h2' := h2
      rw [← h1, hb] at h2'
      exact Bool.noConfusion h2'
  have hsz2 : sz2.textureLost = false := by
    cases hb : sz2.textureLost with
    | false => rfl
    | true =>
      have h1 : (rebuildAxisW w opq bid st0.tileSize
          ((st0.textureSize : Int)) Axis.x sz2).1 = sx2 := by
        rw [hx2]
      rw [rebuildAxisW_lost sz2 hb] at h1
      have hsx2' := hsx2
      rw [← h1, hb] at hsx2'
      exact Bool.noConfusion hsx2'
  have hloopz2 : sliceLayersLoop w opq bid st0.tileSize
      ((st0.textureSize : Int)) Axis.z (axisLayers opq st0.tileSize) sy
      emptyGeom emptyGeom = (sz2, oz2) := by
    rw [← rebuildAxisW_eq_loop sy (by rw [hz2]; exact hsz2)]
    exact hz2
  obtain ⟨z2U, z2M, z2T, z2W, z2Q, z2G⟩ :=
    run2_axis _ sy _ _ sz2 oz2 hloopz2 hsy hsz2 hPz
  have hPx2 : ∀ l ∈ axisLayers opq st0.tileSize,
      (sliceEmpty w Axis.x st0.tileSize l →
        umLookup (UsageTok.sliceTok bid Axis.x l) sz2.usageMap = none) ∧
      (¬ sliceEmpty w Axis.x st0.tileSize l →
        ∃ c, umLookup (UsageTok.sliceTok bid Axis.x l) sz2.usageMap
          = some c) := by
    intro l hl
    rw [z2U]
    exact hPx l hl
  have hloopx2 : sliceLayersLoop w opq bid st0.tileSize
      ((st0.textureSize : Int)) Axis.x (axisLayers opq st0.tileSize) sz2
      emptyGeom emptyGeom = (sx2, ox2) := by
    rw [← rebuildAxisW_eq_loop sz2 (by rw [hx2]; exact hsx2)]
    exact hx2
  obtain ⟨x2U, x2M, x2T, x2W, x2Q, x2G⟩ :=
    run2_axis _ sz2 _ _ sx2 ox2 hloopx2 hsz2 hsx2 hPx2
  have hPy2 : ∀ l ∈ axisLayers opq st0.tileSize,
      (sliceEmpty w Axis.y st0.tileSize l →
        umLookup (UsageTok.sliceTok bid Axis.y l) sx2.usageMap = none) ∧
      (¬ sliceEmpty w Axis.y st0.tileSize l →
        ∃ c, umLookup (UsageTok.sliceTok bid Axis.y l) sx2.usageMap
          = some c) := by
    intro l hl
    rw [x2U, z2U]
    exact yP l hl
  have hloopy2 : sliceLayersLoop w opq bid st0.tileSize
      ((st0.textureSize : Int)) Axis.y (axisLayers opq st0.tileSize) sx2
      emptyGeom emptyGeom = (sy2, oy2) := by
    rw [← rebuildAxisW_eq_loop sx2 (by rw [hy2]; exact h2)]
    exact hy2
  obtain ⟨y2U, y2M, y2T, y2W, y2Q, y2G⟩ :=
    run2_axis _ sx2 _ _ sy2 oy2 hloopy2 hsx2 h2 hPy2
  -- normalize the second-run geometry to st0 parameters and the final map
  simp only [syT, syW, syQ] at z2G
  simp only [z2T, z2W, z2Q, syT, syW, syQ, z2U] at x2G
  simp only [x2T, x2W, x2Q, z2T, z2W, z2Q, syT, syW, syQ, x2U, z2U] at y2G
  have hoz : oz2 = oz := z2G.trans zG'.symm
  have hox : ox2 = ox := x2G.trans xG'.symm
  have hoy : oy2 = oy := y2G.trans yG.symm
  have humeq : sy2.usageMap = sy.usageMap := y2U.trans (x2U.trans z2U)
  have hmapeq : sy2.tileAllocMap = sy.tileAllocMap :=
    y2M.trans (x2M.trans z2M)
  exact ⟨by rw [hoz, hox, hoy], humeq, hmapeq⟩

/-- The face data of a color block whose tile resides at cell `c`: two quads
per axis sharing the unflipped texcoord list. -/
def colorFD (T W Q c : Nat) : List (String × Geom) :=
  [("l" ++ dimName Axis.z,
    { vertices := quadVertices Axis.z false 0
      texcoords := tcPure T W false (c / Q) (c % Q) }),
   ("h" ++ dimName Axis.z,
    { vertices := quadVertices Axis.z true 1
      texcoords := tcPure T W false (c / Q) (c % Q) }),
   ("l" ++ dimName Axis.x,
    { vertices := quadVertices Axis.x false 0
      texcoords := tcPure T W false (c / Q) (c % Q) }),
   ("h" ++ dimName Axis.x,
    { vertices := quadVertices Axis.x true 1
      texcoords := tcPure T W false (c / Q) (c % Q) }),
   ("l" ++ dimName Axis.y,
    { vertices := quadVertices Axis.y false 0
      texcoords := tcPure T W false (c / Q) (c % Q) }),
   ("h" ++ dimName Axis.y,
    { vertices := quadVertices Axis.y true 1
      texcoords := tcPure T W false (c / Q) (c % Q) })]

/-- The pixel buffer after the color fill and border pass, for a tile at
cell `c`. -/
def colorImgFull (col : RGBA) (T W Q c : Nat) (img : Int → Nat) : Int → Nat :=
  completedCore T (W : Int) ((1 + (T + 2) * (c / Q) : Nat) : Int)
    ((1 + (T + 2) * (c % Q) : Nat) : Int)
    (fillColorPixels col (W : Int) ((1 + (T + 2) * (c / Q) : Nat) : Int)
      ((1 + (T + 2) * (c % Q) : Nat) : Int) T T img)

theorem rebuildColorF_found (col : RGBA) {bid : Nat} {s : Texgen UsageTok}
    {c : Nat} (hl : s.textureLost = false)
    (hum : umLookup (UsageTok.colorTok bid) s.usageMap = some c) :
    rebuildColorF col bid s =
      ({ s with image := (colorImgFull col s.tileSize s.textureSize
          s.tileCountSqrt c s.image) },
       colorFD s.tileSize s.textureSize s.tileCountSqrt c) := by
  simp only [rebuildColorF, imageCoordsFor, allocationFor, completedF,
    colorAxisFaces, calcTexCoords, uvFor, tileCoords, hl, hum,
    Bool.false_eq_true, if_false, if_true, ite_true, ite_false, colorFD,
    tcPure, colorImgFull]

theorem rebuildColorF_fresh (col : RGBA) {bid : Nat} {s : Texgen UsageTok}
    {c : Nat} (hl : s.textureLost = false)
    (hum : umLookup (UsageTok.colorTok bid) s.usageMap = none)
    (hscan : tileAllocScan s.tileAllocMap s.freePointer 0 = some c) :
    rebuildColorF col bid s =
      ({ s with
          tileAllocMap := s.tileAllocMap.set c 1
          freePointer := c
          usageMap := (UsageTok.colorTok bid, c) :: s.usageMap
          image := (colorImgFull col s.tileSize s.textureSize
            s.tileCountSqrt c s.image) },
       colorFD s.tileSize s.textureSize s.tileCountSqrt c) := by
  simp only [rebuildColorF, imageCoordsFor, allocationFor, completedF,
    colorAxisFaces, calcTexCoords, uvFor, tileCoords, hl, hum, hscan,
    umLookup_cons_self, Bool.false_eq_true, if_false, if_true, ite_true,
    ite_false, colorFD, tcPure, colorImgFull]

theorem rebuildColorF_lost (col : RGBA) {bid : Nat} {s : Texgen UsageTok}
    (hl : s.textureLost = true) :
    (rebuildColorF col bid s).1.textureLost = true := by
  simp [rebuildColorF, imageCoordsFor, allocationFor, completedF,
    colorAxisFaces, calcTexCoords, uvFor, hl]

theorem rebuildColorF_grow (col : RGBA) {bid : Nat} {s : Texgen UsageTok}
    (hl : s.textureLost = false)
    (hum : umLookup (UsageTok.colorTok bid) s.usageMap = none)
    (hscan : tileAllocScan s.tileAllocMap s.freePointer 0 = none) :
    (rebuildColorF col bid s).1.textureLost = true := by
  simp [rebuildColorF, imageCoordsFor, allocationFor, completedF,
    colorAxisFaces, calcTexCoords, uvFor, enlargeTexture, hl, hum, hscan]

/-- **C7** (corrected): re-running `rebuildOne` for the same block ID with an
unchanged block type (initial usage map key-unique, no texture loss during
either run) finds every persistent token already mapped to its tile, leaves
the usage map and the occupancy bitmap exactly as the first run left them,
and reproduces identical face geometry — hence identical vertices and
texcoords for all 24 rotation variants.  The pixel buffer, however, is NOT
byte-identical in general: an empty (fully obscured) slice releases its tile
in both runs, but the second run's transient allocation can land on a
different free cell and scribble that unoccupied region of the atlas (see
the counterexample). -/
theorem claim_C7_idempotence (bt : BlockTypeM) (bid : Nat)
    (st0 : Texgen UsageTok) (hnd : UMNodup st0)
    (h2 : (rebuildOneF bt bid
      (rebuildOneF bt bid st0).1).1.textureLost = false) :
    (rebuildOneF bt bid (rebuildOneF bt bid st0).1).2 =
      (rebuildOneF bt bid st0).2 ∧
    (rebuildOneF bt bid (rebuildOneF bt bid st0).1).1.usageMap =
      (rebuildOneF bt bid st0).1.usageMap ∧
    (rebuildOneF bt bid (rebuildOneF bt bid st0).1).1.tileAllocMap =
      (rebuildOneF bt bid st0).1.tileAllocMap ∧
    ∀ (f : Nat → Bool) (A : Nat → ℚ → ℚ × ℚ × ℚ → ℚ × ℚ × ℚ) (rot : Nat),
      rotateFaceData f A rot
          (rebuildOneF bt bid (rebuildOneF bt bid st0).1).2 =
        rotateFaceData f A rot (rebuildOneF bt bid st0).2 := by
  cases bt with
  | worldType w opq =>
    simp only [rebuildOneF] at h2 ⊢
    obtain ⟨hfd, hum, hmap⟩ := rebuildWorldF_idem w opq bid st0 hnd h2
    exact ⟨hfd, hum, hmap, fun f A rot => by rw [hfd]⟩
  | colorType col =>
    simp only [rebuildOneF] at h2 ⊢
    cases hl0 : st0.textureLost with
    | true =>
      exfalso
      rw [rebuildColorF_lost col (rebuildColorF_lost col hl0)] at h2
      exact Bool.noConfusion h2
    | false =>
      rcases hum0 : umLookup (UsageTok.colorTok bid) st0.usageMap with _ | c
      · rcases hscan0 : tileAllocScan st0.tileAllocMap st0.freePointer 0
          with _ | c
        · exfalso
          rw [rebuildColorF_lost col
            (rebuildColorF_grow col hl0 hum0 hscan0)] at h2
          exact Bool.noConfusion h2
        · have r1 := rebuildColorF_fresh col hl0 hum0 hscan0
          have r2 := rebuildColorF_found col (s := { st0 with
              tileAllocMap := st0.tileAllocMap.set c 1
              freePointer := c
              usageMap := (UsageTok.colorTok bid, c) :: st0.usageMap
              image := (colorImgFull col st0.tileSize st0.textureSize
                st0.tileCountSqrt c st0.image) }) (c := c) hl0
            (umLookup_cons_self _ _ _)
          simp only [r1, r2]
          exact ⟨trivial, trivial, trivial, fun f A rot => trivial⟩
      · have r1 := rebuildColorF_found col (c := c) hl0 hum0
        have r2 := rebuildColorF_found col (s := { st0 with
            image := (colorImgFull col st0.tileSize st0.textureSize
              st0.tileCountSqrt c st0.image) }) (c := c) hl0 hum0
        simp only [r1, r2]
        exact ⟨trivial, trivial, trivial, fun f A rot => trivial⟩

/-- A 3×3×3 container, fully opaque except for the single voxel `(1,1,0)`:
the z-axis slice at layer 0 is visible, the slices at layers 1 and 2 are
fully obscured and therefore released after their pixels were written. -/
def c7World : WorldM :=
  { rgba := fun x y z =>
      if (0 ≤ x ∧ x < 3 ∧ 0 ≤ y ∧ y < 3 ∧ 0 ≤ z ∧ z < 3) ∧
          ¬(x = 1 ∧ y = 1 ∧ z = 0)
      then { r := 200, g := 100, b := 50, a := 255 }
      else { r := 0, g := 0, b := 0, a := 0 }
    opaq := fun x y z =>
      decide ((0 ≤ x ∧ x < 3 ∧ 0 ≤ y ∧ y < 3 ∧ 0 ≤ z ∧ z < 3) ∧
        ¬(x = 1 ∧ y = 1 ∧ z = 0)) }

/-- A live 6×6-tile atlas (`tileSize 3`, surface 32), initially empty. -/
def c7Start : Texgen UsageTok :=
  { tileSize := 3
    textureSize := 32
    tileCountSqrt := 6
    tileAllocMap := List.replicate 36 0
    freePointer := 0
    usageMap := []
    textureLost := false
    image := fun _ => 0 }

/-- `c7World` as a non-opaque (transparent-flagged) World block type, so all
three layers of every axis are sliced. -/
def c7Block : BlockTypeM := BlockTypeM.worldType c7World false

set_option maxRecDepth 1000000 in
/-- Byte-level idempotence fails: neither run loses the texture, yet the
second run writes byte `255` at buffer offset `795`, where the first run
left `0` — a transient tile of an obscured slice lands on a different free
cell in the second run. -/
theorem claim_C7_idempotence_counterexample :
    (rebuildOneF c7Block 1
      (rebuildOneF c7Block 1 c7Start).1).1.textureLost = false ∧
    (rebuildOneF c7Block 1 (rebuildOneF c7Block 1 c7Start).1).1.image 795
      = 255 ∧
    (rebuildOneF c7Block 1 c7Start).1.image 795 = 0 :=
  ⟨by decide, by decide, by decide⟩

/-- A small live atlas for the witness runs. -/
def c7cStart : Texgen UsageTok :=
  { tileSize := 2
    textureSize := 8
    tileCountSqrt := 2
    tileAllocMap := List.replicate 4 0
    freePointer := 0
    usageMap := []
    textureLost := false
    image := fun _ => 0 }

theorem claim_C7_idempotence_witness :
    (UMNodup c7cStart ∧
      (rebuildOneF (BlockTypeM.colorType ⟨10, 20, 30, 255⟩) 1
        (rebuildOneF (BlockTypeM.colorType ⟨10, 20, 30, 255⟩) 1
          c7cStart).1).1.textureLost = false) ∧
    (rebuildOneF (BlockTypeM.colorType ⟨10, 20, 30, 255⟩) 1
      (rebuildOneF (BlockTypeM.colorType ⟨10, 20, 30, 255⟩) 1
        c7cStart).1).1.usageMap =
      (rebuildOneF (BlockTypeM.colorType ⟨10, 20, 30, 255⟩) 1
        c7cStart).1.usageMap :=
  ⟨⟨by decide, by decide⟩,
   (claim_C7_idempotence (BlockTypeM.colorType ⟨10, 20, 30, 255⟩) 1 c7cStart
     (by decide) (by decide)).2.1⟩

end Cubes
